import Mathlib

/-!
Verification of the segment-timeline construction and active-speaker ROI
selection engine of the FaceNetMediaPipeResizer (clipsai/resize/facenet_mp.py).

The Python code is shallowly embedded:
* times and pixel quantities that Python holds as float/int are modelled as
  rationals and integers (the code only adds, subtracts, compares, floors and
  divides them, all exact over the rationals);
* Python lists mutated in place become explicit list-passing;
* the external collaborators (frame extraction, the MTCNN face detector, the
  mediapipe landmark extractor, numpy random choice, sklearn KMeans) are
  modelled as oracle parameters, constrained only by their documented
  interface contracts;
* a Python IndexError or ZeroDivisionError is modelled by returning none
  (respectively an error value) from the embedded function.
-/

/-- A speaker segment as produced by diarization and consumed by the
Timeline Merger: a list of speaker labels plus a start and end time in
seconds (resize, lines 68-75 of facenet_mp.py). -/
structure SpeakerSegment where
  speakers : List ℕ
  startTime : ℚ
  endTime : ℚ
deriving DecidableEq, Repr

/-- The cursor-advancing while loop of _merge_scene_change_and_speaker_segments
(lines 236-239): starting from index idx, repeatedly read
speaker_segments[segments_idx] and advance while the scene change lies past the
segment's end.  Reading past the end of the list is a Python IndexError,
modelled as none.  The fuel argument is purely structural; callers pass
segs.length + 1 which is enough for the cursor to either stop or run off the
end of the list. -/
def advanceIdx (segs : List SpeakerSegment) (sc : ℚ) : ℕ → ℕ → Option ℕ
  | 0, _ => none
  | fuel + 1, idx =>
    match segs[idx]? with
    | none => none
    | some seg => if sc > seg.endTime then advanceIdx segs sc fuel (idx + 1) else some idx

/-- The body of the per-scene-change for loop of
_merge_scene_change_and_speaker_segments (lines 235-270).  State is the
current segment list together with the persistent cursor segments_idx.
The four resolution branches are, in the code's priority order: snap the
segment end (lines 241-247), snap the segment start (lines 249-255), the
duplicate-boundary no-op (lines 257-258), and the split (lines 260-270). -/
def processSceneChange (st : List SpeakerSegment × ℕ) (sc : ℚ) :
    Option (List SpeakerSegment × ℕ) :=
  match advanceIdx st.1 sc (st.1.length + 1) st.2 with
  | none => none
  | some idx =>
    match st.1[idx]? with
    | none => none
    | some seg =>
      if 0 < seg.endTime - sc ∧ seg.endTime - sc < 0.25 then
        if idx = (st.1.set idx { seg with endTime := sc }).length - 1 then
          some (st.1.set idx { seg with endTime := sc }, idx)
        else
          match (st.1.set idx { seg with endTime := sc })[idx + 1]? with
          | none => none
          | some nxt =>
            some ((st.1.set idx { seg with endTime := sc }).set (idx + 1)
              { nxt with startTime := sc }, idx)
      else if 0 < sc - seg.startTime ∧ sc - seg.startTime < 0.25 then
        if idx = 0 then some (st.1.set idx { seg with startTime := sc }, idx)
        else
          match (st.1.set idx { seg with startTime := sc })[idx - 1]? with
          | none => none
          | some prev =>
            some ((st.1.set idx { seg with startTime := sc }).set (idx - 1)
              { prev with endTime := sc }, idx)
      else if sc = seg.endTime then some (st.1, idx)
      else
        some ((st.1.set idx { seg with endTime := sc }).take (idx + 1) ++
          [({ speakers := seg.speakers, startTime := sc, endTime := seg.endTime } : SpeakerSegment)] ++
          (st.1.set idx { seg with endTime := sc }).drop (idx + 1), idx)

/-- The Timeline Merger _merge_scene_change_and_speaker_segments
(lines 202-272): fold the per-scene-change body over the ordered scene-change
list, starting from cursor 0.  A Python IndexError is modelled as none. -/
def mergeSceneChangeAndSpeakerSegments (speakerSegments : List SpeakerSegment)
    (sceneChanges : List ℚ) : Option (List SpeakerSegment) :=
  (sceneChanges.foldlM processSceneChange (speakerSegments, 0)).map Prod.fst

/-- Contiguity of a segment list: each segment's end time is the next
segment's start time (the partition invariant of the spec). -/
def Contig (l : List SpeakerSegment) : Prop :=
  List.Chain' (fun a b => a.endTime = b.startTime) l

instance : DecidablePred Contig := fun l =>
  inferInstanceAs (Decidable (List.Chain' _ l))

/-- Every segment's start time is at most its end time. -/
def WellOrderedSegs (l : List SpeakerSegment) : Prop :=
  ∀ s ∈ l, s.startTime ≤ s.endTime

instance : DecidablePred WellOrderedSegs := fun l =>
  inferInstanceAs (Decidable (∀ s ∈ l, s.startTime ≤ s.endTime))

/-! ### Capacity Planner (_calc_n_batches, lines 382-451) -/

/-- Modelled from the spec: the helper calc_img_bytes lives in ml/utils/image
which is not part of this repository's sources; the spec (section 4.2)
describes it as the per-frame byte cost of an image of the given dimensions,
one byte per channel sample of each pixel. -/
def calcImgBytes (height width channels : ℕ) : ℕ :=
  height * width * channels

/-- FACE_DETECT_WIDTH constant (line 36). -/
def faceDetectWidth : ℕ := 960

/-- The free_gpu_memory constant of _calc_n_batches (line 426). -/
def freeGpuMemory : ℕ := 800000000

/-- The free_cpu_memory constant of _calc_n_batches (line 428). -/
def freeCpuMemory : ℕ := 8000000000

/-- Lines 413-414: downsample_factor = max(vid_width / FACE_DETECT_WIDTH, 1)
followed by face_detect_height = int(vid_height // downsample_factor)
(exact rational division, then floor). -/
def faceDetectHeight (vidWidth vidHeight : ℕ) : ℕ :=
  (⌊(vidHeight : ℚ) / max ((vidWidth : ℚ) / (faceDetectWidth : ℚ)) 1⌋).toNat

/-- The Capacity Planner _calc_n_batches (lines 382-451).  cuda is
torch.cuda.is_available(); all byte counts are Python ints, and the Python
floor divisions on nonnegative ints are Nat division. -/
def calcNBatches (vidWidth vidHeight : ℕ) (cuda : Bool) (numFrames : ℕ) : ℕ :=
  let totalExtractBytes := numFrames * calcImgBytes vidHeight vidWidth 3
  let totalFaceDetectBytes :=
    numFrames * calcImgBytes (faceDetectHeight vidWidth vidHeight) faceDetectWidth 3
  if cuda then
    let nExtractBatches := totalExtractBytes / freeCpuMemory + 1
    let nFaceDetectBatches := totalFaceDetectBytes / freeGpuMemory + 1
    max nExtractBatches nFaceDetectBatches
  else
    let totalExtractBytes' := totalExtractBytes + totalFaceDetectBytes
    let nExtractBatches := totalExtractBytes' / freeCpuMemory + 1
    let nFaceDetectBatches := 0
    max nExtractBatches nFaceDetectBatches

/-- The batch count that claim C4 asserts (following the spec's words):
the exact ceiling of extraction bytes over the CPU budget against the
ceiling of detection bytes over the accelerator budget, and at least 1;
without an accelerator the two byte costs are summed over the CPU budget. -/
def claimedNBatches (vidWidth vidHeight : ℕ) (cuda : Bool) (numFrames : ℕ) : ℕ :=
  let extractBytes := numFrames * calcImgBytes vidHeight vidWidth 3
  let detectBytes :=
    numFrames * calcImgBytes (faceDetectHeight vidWidth vidHeight) faceDetectWidth 3
  if cuda then
    max (max ((extractBytes + freeCpuMemory - 1) / freeCpuMemory)
             ((detectBytes + freeGpuMemory - 1) / freeGpuMemory)) 1
  else
    max ((extractBytes + detectBytes + freeCpuMemory - 1) / freeCpuMemory) 1

/-- The amended batch-count formula: the code computes floor division plus
one, not a ceiling, on each memory pool. -/
def amendedNBatches (vidWidth vidHeight : ℕ) (cuda : Bool) (numFrames : ℕ) : ℕ :=
  let extractBytes := numFrames * calcImgBytes vidHeight vidWidth 3
  let detectBytes :=
    numFrames * calcImgBytes (faceDetectHeight vidWidth vidHeight) faceDetectWidth 3
  if cuda then
    max (extractBytes / freeCpuMemory + 1) (detectBytes / freeGpuMemory + 1)
  else
    (extractBytes + detectBytes) / freeCpuMemory + 1

/-! ### Geometry: Rect and the Crop Calculator -/

/-- Modelled from the spec: the Rect class is imported from resize/rect which
is not part of this repository's sources; section 3 of the spec describes it
as an axis-aligned rectangle with component-wise addition and component-wise
division by a count that must be positive.  Components are rationals since
the Python code mixes ints and floats in them. -/
structure Rect where
  x : ℚ
  y : ℚ
  width : ℚ
  height : ℚ
deriving DecidableEq, Repr

/-- Modelled from the spec: component-wise sum of two rectangles. -/
def Rect.add (a b : Rect) : Rect :=
  ⟨a.x + b.x, a.y + b.y, a.width + b.width, a.height + b.height⟩

/-- Modelled from the spec: component-wise division of a rectangle by a
count; callers only invoke it with a positive count (division by zero is a
Python ZeroDivisionError, which callers model by guarding the call). -/
def Rect.divBy (a : Rect) (n : ℚ) : Rect :=
  ⟨a.x / n, a.y / n, a.width / n, a.height / n⟩

/-- The Crop Calculator _calc_crop (lines 860-887): the ROI center uses
floor division by 2 on each component, the crop corner is the center minus
half the resize dimension clamped below at 0, and no upper clamp exists. -/
def calcCrop (roi : Rect) (resizeWidth resizeHeight : ℕ) : Rect :=
  let roiXCenter := roi.x + (⌊roi.width / 2⌋ : ℤ)
  let roiYCenter := roi.y + (⌊roi.height / 2⌋ : ℤ)
  { x := max (roiXCenter - ((resizeWidth / 2 : ℕ) : ℚ)) 0
    y := max (roiYCenter - ((resizeHeight / 2 : ℕ) : ℚ)) 0
    width := (resizeWidth : ℚ)
    height := (resizeHeight : ℚ) }

/-! ### Segment Compactor (_merge_identical_segments, lines 889-927) -/

/-- A fully resolved segment as consumed by the Segment Compactor: the
speaker list and times plus the crop corner coordinates added by the ROI
stage (segment["x"], segment["y"] are Python ints). -/
structure XYSegment where
  speakers : List ℕ
  startTime : ℚ
  endTime : ℚ
  x : ℤ
  y : ℤ
deriving DecidableEq, Repr

/-- One iteration of the compactor's for loop (lines 909-926): compare the
pair at the cursor, average the x coordinates in place whenever they are
within 4 percent of the source width (even if the pair is not merged), and
either merge the pair (cursor stays) or advance the cursor.  The code never
reads out of range during its fixed number of iterations, so the fallthrough
for an out-of-range cursor returns the state unchanged. -/
def mergeStep (vidWidth : ℕ) (segs : List XYSegment) (idx : ℕ) :
    List XYSegment × ℕ :=
  match segs[idx]?, segs[idx + 1]? with
  | some cur, some nxt =>
    if (((cur.x - nxt.x).natAbs : ℚ) / (vidWidth : ℚ)) < 0.04 then
      -- same_x: the averaging write happens before the merge decision
      if cur.y = nxt.y then
        ((segs.set idx
          ⟨cur.speakers, cur.startTime, nxt.endTime, (cur.x + nxt.x).fdiv 2, cur.y⟩).eraseIdx
            (idx + 1), idx)
      else
        (segs.set idx
          ⟨cur.speakers, cur.startTime, cur.endTime, (cur.x + nxt.x).fdiv 2, cur.y⟩,
          idx + 1)
    else
      -- not same_x: never merged, cursor advances
      (segs, idx + 1)
  | _, _ => (segs, idx)

/-- The Segment Compactor _merge_identical_segments (lines 889-927): run the
step exactly len(segments) - 1 times, where the iteration count is fixed at
loop entry exactly as Python's range is. -/
def mergeIdenticalSegments (vidWidth : ℕ) (segments : List XYSegment) :
    List XYSegment :=
  ((List.range (segments.length - 1)).foldl
    (fun st _ => mergeStep vidWidth st.1 st.2) (segments, 0)).1

/-! ### Face detection collaborator model -/

/-- A face bounding box [x1, y1, x2, y2] as produced by _detect_faces: after
the clamp and int16 cast of lines 498-499 its components are integers. -/
structure Box where
  x1 : ℤ
  y1 : ℤ
  x2 : ℤ
  y2 : ℤ
deriving DecidableEq, Repr

/-- The composite frame-extraction plus face-detection collaborator: for a
timestamp it yields either none (no face in that frame) or the detector's
post-processed bounding boxes.  extract_frames, MTCNN and the numeric
post-processing of _detect_faces (lines 453-503) are external to the claims,
which depend only on the returned detections per requested timestamp, in
positional correspondence (spec section 5). -/
abbrev FaceOracle : Type := ℚ → Option (List Box)

/-- Batched extraction and detection as performed inside
_find_first_sec_with_face_for_each_segment (lines 335-346): the batch count
comes from the Capacity Planner, frames_per_batch = int(len // n + 1), and
batch i covers the Python slice [i * fpb : min((i + 1) * fpb, len)].
Each slice is extracted and detected, and the detections are concatenated in
order. -/
def detectFacesBatched (oracle : FaceOracle) (vidWidth vidHeight : ℕ) (cuda : Bool)
    (secs : List ℚ) : List (Option (List Box)) :=
  (List.range (calcNBatches vidWidth vidHeight cuda secs.length)).flatMap (fun i =>
    ((secs.drop
        (i * (secs.length / calcNBatches vidWidth vidHeight cuda secs.length + 1))).take
      (min ((i + 1) * (secs.length / calcNBatches vidWidth vidHeight cuda secs.length + 1))
          secs.length
        - i * (secs.length / calcNBatches vidWidth vidHeight cuda secs.length + 1))).map
      oracle)

/-! ### Face Presence Scanner (_find_first_sec_with_face_for_each_segment,
lines 274-380) -/

/-- A segment during the scanner loop: the diarized fields plus the mutable
firstFaceSec / foundFace / isAnalyzed / numSamples entries the code adds. -/
structure ScanSegment where
  speakers : List ℕ
  startTime : ℚ
  endTime : ℚ
  firstFaceSec : ℚ
  foundFace : Bool
  isAnalyzed : Bool
  numSamples : ℕ
deriving DecidableEq, Repr

/-- Initialization of lines 310-316: firstFaceSec starts an eighth of the way
into the segment, nothing found, nothing analyzed.  numSamples is written
before first use by each round; 0 is its inert initial value. -/
def initScanSegment (s : SpeakerSegment) : ScanSegment :=
  { speakers := s.speakers, startTime := s.startTime, endTime := s.endTime,
    firstFaceSec := s.startTime + (s.endTime - s.startTime) / 8,
    foundFace := false, isAnalyzed := false, numSamples := 0 }

/-- Lines 327-329 with sample_period = 1: the number of 1-second-spaced
samples for one unresolved segment in a round of window batchPeriod; Python's
float floor-division then int() then max(1, _) is floor, toNat, max 1. -/
def segmentNumSamples (batchPeriod : ℕ) (seg : ScanSegment) : ℕ :=
  max 1 (⌊min (batchPeriod : ℚ) (seg.endTime - seg.firstFaceSec)⌋.toNat)

/-- The first phase of a round (lines 323-332): store numSamples on every
unresolved segment. -/
def roundMarked (batchPeriod : ℕ) (segs : List ScanSegment) : List ScanSegment :=
  segs.map (fun seg =>
    if seg.isAnalyzed then seg
    else { seg with numSamples := segmentNumSamples batchPeriod seg })

/-- The sample timestamps gathered by the first phase of a round
(lines 331-332): for each unresolved segment, numSamples timestamps starting
at firstFaceSec, spaced sample_period = 1 apart, concatenated over segments
in order. -/
def roundDetectSecs (batchPeriod : ℕ) (segs : List ScanSegment) : List ℚ :=
  segs.flatMap (fun seg =>
    if seg.isAnalyzed then []
    else (List.range (segmentNumSamples batchPeriod seg)).map
      (fun i => seg.firstFaceSec + i))

/-- The inner scan of lines 356-362 for one segment over its own slice of the
detection results: the first detection that is not none sets foundFace and
stops; every miss before it advances firstFaceSec by sample_period = 1. -/
def scanSamples : List (Option (List Box)) → ScanSegment → ScanSegment
  | [], seg => seg
  | d :: rest, seg =>
    match d with
    | some _ => { seg with foundFace := true }
    | none => scanSamples rest { seg with firstFaceSec := seg.firstFaceSec + 1 }

/-- Lines 356-370 for one unresolved segment: scan its numSamples detections,
then mark it analyzed exactly when a face was found or firstFaceSec reached
endTime - 0.25. -/
def analyzeSegment (dets : List (Option (List Box))) (seg : ScanSegment) : ScanSegment :=
  let seg' := scanSamples dets seg
  if seg'.foundFace = true ∨ seg'.firstFaceSec ≥ seg'.endTime - 0.25 then
    { seg' with isAnalyzed := true }
  else seg'

/-- The index bookkeeping of lines 349-371: walk the segments in order; an
already-analyzed segment consumes no detections, every other segment consumes
exactly its numSamples detections (idx = segment_idx + numSamples). -/
def distributeDetections : List (Option (List Box)) → List ScanSegment → List ScanSegment
  | _, [] => []
  | dets, seg :: rest =>
    if seg.isAnalyzed then seg :: distributeDetections dets rest
    else
      analyzeSegment (dets.take seg.numSamples) seg ::
        distributeDetections (dets.drop seg.numSamples) rest

/-- One iteration of the scanner's while loop (lines 321-374, minus the
final batch_period update): gather the sample times, extract and detect them
in planner-sized batches, and distribute the results back onto the
segments. -/
def scanRound (oracle : FaceOracle) (vidWidth vidHeight : ℕ) (cuda : Bool)
    (batchPeriod : ℕ) (segs : List ScanSegment) : List ScanSegment :=
  distributeDetections
    (detectFacesBatched oracle vidWidth vidHeight cuda (roundDetectSecs batchPeriod segs))
    (roundMarked batchPeriod segs)

/-- The scanner's while loop (line 321): analyzed_segments counts exactly the
segments whose isAnalyzed flag is set (the counter increments whenever the
flag is newly set and the flag is never cleared), so the guard
analyzed_segments < len(segments) is the existence of an unresolved segment.
batch_period starts at 1 and becomes (batch_period + 3) * 2 after each round
(line 374).  The fuel argument bounds the number of rounds; exhausting it
models non-termination (none). -/
def scanLoop (oracle : FaceOracle) (vidWidth vidHeight : ℕ) (cuda : Bool) :
    ℕ → ℕ → List ScanSegment → Option (List ScanSegment)
  | 0, _, segs => if segs.all (·.isAnalyzed) then some segs else none
  | fuel + 1, batchPeriod, segs =>
    if segs.all (·.isAnalyzed) then some segs
    else
      scanLoop oracle vidWidth vidHeight cuda fuel ((batchPeriod + 3) * 2)
        (scanRound oracle vidWidth vidHeight cuda batchPeriod segs)

/-- A segment as returned by the scanner (lines 376-380): the numSamples and
isAnalyzed working fields are deleted, firstFaceSec and foundFace remain. -/
structure FaceSegment where
  speakers : List ℕ
  startTime : ℚ
  endTime : ℚ
  firstFaceSec : ℚ
  foundFace : Bool
deriving DecidableEq, Repr

/-- The whole of _find_first_sec_with_face_for_each_segment (lines 274-380):
initialize every segment, run rounds until all are resolved, strip the
working fields. -/
def findFirstSecWithFaceForEachSegment (oracle : FaceOracle) (vidWidth vidHeight : ℕ)
    (cuda : Bool) (fuel : ℕ) (segments : List SpeakerSegment) :
    Option (List FaceSegment) :=
  (scanLoop oracle vidWidth vidHeight cuda fuel 1 (segments.map initScanSegment)).map
    (List.map fun s => ⟨s.speakers, s.startTime, s.endTime, s.firstFaceSec, s.foundFace⟩)

/-- The effect of one scanner round on a single segment (the round acts
segment-wise; proved below as scanRound_eq_map): an unresolved segment
records its numSamples, is scanned over its own sample timestamps, and is
then marked analyzed when appropriate; a resolved segment is untouched. -/
def scanRoundSeg (oracle : FaceOracle) (batchPeriod : ℕ) (seg : ScanSegment) :
    ScanSegment :=
  if seg.isAnalyzed then seg
  else
    analyzeSegment
      ((List.range (segmentNumSamples batchPeriod seg)).map
        (fun i => oracle (seg.firstFaceSec + i)))
      { seg with numSamples := segmentNumSamples batchPeriod seg }

/-- Termination measure of one segment: zero once resolved, otherwise one
more than the whole seconds separating firstFaceSec from the resolution
boundary endTime - 0.25. -/
def segMeasure (seg : ScanSegment) : ℕ :=
  if seg.isAnalyzed = true then 0
  else ⌈seg.endTime - 0.25 - seg.firstFaceSec⌉.toNat + 1

/-- Termination measure of a segment list: the sum of the per-segment
measures. -/
def totalMeasure (segs : List ScanSegment) : ℕ :=
  (segs.map segMeasure).sum

/-- The reason a segment may carry the isAnalyzed flag: a face was found or
firstFaceSec reached the resolution boundary endTime - 0.25 (lines 363-366). -/
def SegResolved (s : ScanSegment) : Prop :=
  s.isAnalyzed = true → (s.foundFace = true ∨ s.endTime - 0.25 ≤ s.firstFaceSec)

/-! ### Active Speaker ROI Selector (_calc_segment_roi and helpers,
lines 573-858) -/

/-- Python's int() on a float: truncation toward zero. -/
def truncQ (q : ℚ) : ℤ :=
  if q < 0 then ⌈q⌉ else ⌊q⌋

/-- Wraparound of numpy's astype(np.int16) and int16 arithmetic. -/
def toInt16 (z : ℤ) : ℤ :=
  (z + 2 ^ 15) % 2 ^ 16 - 2 ^ 15

/-- Lines 702-709: the bounding boxes of all sampled frames of a segment,
flattened in frame order, skipping frames whose detection is none. -/
def boxList (dets : List (Option (List Box))) : List Box :=
  (dets.filterMap id).flatten

/-- Lines 703-707: k, the maximum number of simultaneously detected faces in
any single sampled frame. -/
def maxSimultaneous (dets : List (Option (List Box))) : ℕ :=
  dets.foldl (fun k d => match d with | none => k | some bs => max k bs.length) 0

/-- Lines 717-719: np.mean(bounding_boxes, axis=0).astype(np.int16) - the
column-wise rational mean truncated toward zero and wrapped to int16. -/
def meanBoxInt16 (bs : List Box) : Box :=
  let n : ℚ := (bs.length : ℚ)
  { x1 := toInt16 (truncQ (((bs.map (fun b => (b.x1 : ℚ))).sum) / n)),
    y1 := toInt16 (truncQ (((bs.map (fun b => (b.y1 : ℚ))).sum) / n)),
    x2 := toInt16 (truncQ (((bs.map (fun b => (b.x2 : ℚ))).sum) / n)),
    y2 := toInt16 (truncQ (((bs.map (fun b => (b.y2 : ℚ))).sum) / n)) }

/-- Lines 733-742: the (bounding box, source frame index) pairs in traversal
order - frames enumerated, none skipped, each frame's boxes in order.  The
running kmeans_idx of the code is the position in this list. -/
def boxesWithFrames (dets : List (Option (List Box))) : List (Box × ℕ) :=
  dets.enum.flatMap (fun p =>
    match p.2 with
    | none => []
    | some bs => bs.map (fun b => (b, p.1)))

/-- Lines 731-742: partition the boxes into k groups by their kmeans label;
group g receives, in traversal order, exactly the boxes whose label is g. -/
def kmeansGroups (labels : List ℕ) (k : ℕ) (bwf : List (Box × ℕ)) :
    List (List (Box × ℕ)) :=
  (List.range k).map (fun g =>
    ((bwf.zip labels).filter (fun q => q.2 == g)).map (·.1))

/-- The mouth-aspect-ratio collaborator (_calc_mouth_aspect_ratio,
lines 826-858, built on the external mediapipe face mesher): for a face crop
identified by its source frame index and bounding box it yields either none
(no landmarks) or the scalar mouth measurement. -/
abbrev MarOracle : Type := ℕ → Box → Option ℚ

/-- _calc_mouth_movement (lines 773-824): accumulate the component-wise sum
of the member face rectangles and the absolute differences of consecutive
available mouth measurements, then divide the rectangle sum by the group
size.  An empty group makes the final division a Python ZeroDivisionError,
modelled as none.  np.int16 differences wrap. -/
def calcMouthMovement (marO : MarOracle) (group : List (Box × ℕ)) :
    Option (ℚ × Rect) :=
  if group.length = 0 then none
  else
    let st := group.foldl
      (fun (acc : ℚ × Option ℚ × Rect) p =>
        let b := p.1
        let roiSum := acc.2.2.add
          ⟨(b.x1 : ℚ), (b.y1 : ℚ), ((toInt16 (b.x2 - b.x1) : ℤ) : ℚ),
            ((toInt16 (b.y2 - b.y1) : ℤ) : ℚ)⟩
        match marO p.2 b with
        | none => (acc.1, acc.2.1, roiSum)
        | some mar =>
          match acc.2.1 with
          | none => (acc.1, some mar, roiSum)
          | some prev => (acc.1 + |mar - prev|, some mar, roiSum))
      (0, none, Rect.mk 0 0 0 0)
    some (st.1, st.2.2.divBy (group.length : ℚ))

/-- Lines 755-769: the fallback average box of a group - integer column sums,
rational division by the group size, truncation, int16 wrap, and the
int16-wrapped differences for width and height. -/
def avgBoxRect (g : List (Box × ℕ)) : Rect :=
  let n : ℚ := (g.length : ℚ)
  let a1 := toInt16 (truncQ (((g.map (fun p => (p.1.x1 : ℚ))).sum) / n))
  let a2 := toInt16 (truncQ (((g.map (fun p => (p.1.y1 : ℚ))).sum) / n))
  let a3 := toInt16 (truncQ (((g.map (fun p => (p.1.x2 : ℚ))).sum) / n))
  let a4 := toInt16 (truncQ (((g.map (fun p => (p.1.y2 : ℚ))).sum) / n))
  ⟨(a1 : ℚ), (a2 : ℚ), ((toInt16 (a3 - a1) : ℤ) : ℚ), ((toInt16 (a4 - a2) : ℤ) : ℚ)⟩

/-- The sklearn KMeans collaborator (lines 724-730): from the stacked boxes
and the cluster count k it yields the per-box label list. -/
abbrev KMeansOracle : Type := List Box → ℕ → List ℕ

/-- _calc_segment_roi (lines 679-771).  k = 0 raises the
no-face-in-segment error (line 713).  k = 1 averages all boxes directly.
k > 1 groups the boxes by the KMeans labels (with the nonnegativity assert
of line 737), scores every group by mouth movement, picks the strictly
largest positive score, and otherwise falls back to the most-populated
group's average box; a group that is empty makes the mouth-movement
division a ZeroDivisionError. -/
def calcSegmentRoi (marO : MarOracle) (kmO : KMeansOracle)
    (dets : List (Option (List Box))) : Except String Rect :=
  if maxSimultaneous dets = 0 then .error "No faces detected in segment."
  else if maxSimultaneous dets = 1 then
    .ok ⟨((meanBoxInt16 (boxList dets)).x1 : ℚ), ((meanBoxInt16 (boxList dets)).y1 : ℚ),
      ((toInt16 ((meanBoxInt16 (boxList dets)).x2 - (meanBoxInt16 (boxList dets)).x1) : ℤ) : ℚ),
      ((toInt16 ((meanBoxInt16 (boxList dets)).y2 - (meanBoxInt16 (boxList dets)).y1) : ℤ) : ℚ)⟩
  else
    if ∀ p ∈ boxesWithFrames dets, 0 ≤ p.1.x1 ∧ 0 ≤ p.1.y1 ∧ 0 ≤ p.1.x2 ∧ 0 ≤ p.1.y2 then
      match (kmeansGroups (kmO (boxList dets) (maxSimultaneous dets))
          (maxSimultaneous dets) (boxesWithFrames dets)).mapM (calcMouthMovement marO) with
      | none => .error "ZeroDivisionError: division by zero"
      | some results =>
        match (results.foldl (fun acc r => if r.1 > acc.1 then (r.1, some r.2) else acc)
            ((0 : ℚ), (none : Option Rect))).2 with
        | some roi => .ok roi
        | none =>
          match ((kmeansGroups (kmO (boxList dets) (maxSimultaneous dets))
              (maxSimultaneous dets) (boxesWithFrames dets)).foldl
              (fun acc g => if g.length > acc.1 then (g.length, some (avgBoxRect g)) else acc)
              ((0 : ℕ), (none : Option Rect))).2 with
          | some roi => .ok roi
          | none => .error "AttributeError: segment_roi is None"
    else .error "AssertionError"

/-- Whether the ROI computation raised (any) Python exception. -/
def roiIsError (r : Except String Rect) : Bool :=
  match r with
  | .error _ => true
  | .ok _ => false

/-! ### ROI sampling (_add_x_y_coords_to_each_segment_batch, lines 622-640) -/

/-- SAMPLES_PER_SEGMENT constant (line 37). -/
def samplesPerSegment : ℕ := 13

/-- Line 629: the end of the analysis window,
end_sec - (end_sec - first_face_sec) / 8. -/
def segmentAnalyzeEndSec (firstFaceSec endSec : ℚ) : ℚ :=
  endSec - (endSec - firstFaceSec) / 8

/-- Line 631: frames_left = int((analyze_end_sec - first_face_sec) * fps + 1),
Python int() being truncation toward zero. -/
def segmentFramesLeft (fps firstFaceSec endSec : ℚ) : ℤ :=
  truncQ ((segmentAnalyzeEndSec firstFaceSec endSec - firstFaceSec) * fps + 1)

/-- Lines 634-640 for one foundFace segment: the sample timestamps are
first_face_sec followed by the chosen frame offsets, sorted, each offset k
contributing first_face_sec + k / fps.  The chosen list stands for the output
of np.random.choice(range(1, frames_left), num_samples - 1, replace=False)
(sampling without replacement from 1..frames_left-1); np.sort is modelled by
insertion sort, which agrees with it on every list. -/
def segmentDetectSecs (chosen : List ℕ) (fps firstFaceSec : ℚ) : List ℚ :=
  firstFaceSec ::
    (chosen.insertionSort (· ≤ ·)).map (fun k : ℕ => firstFaceSec + (k : ℚ) / fps)

/-! ## Theorems -/

/-! ### Basic index plumbing for segment lists -/

/-- Index characterization of contiguity. -/
def ContigAt (l : List SpeakerSegment) : Prop :=
  ∀ i a b, l[i]? = some a → l[i + 1]? = some b → a.endTime = b.startTime

theorem contig_iff_contigAt (l : List SpeakerSegment) : Contig l ↔ ContigAt l := by
  induction l with
  | nil =>
    constructor
    · intro _ i a b ha _
      simp at ha
    · intro _
      exact List.chain'_nil
  | cons s l ih =>
    rw [Contig, List.chain'_cons']
    constructor
    · rintro ⟨h1, h2⟩ i a b ha hb
      cases i with
      | zero =>
        rw [List.getElem?_cons_zero] at ha
        rw [List.getElem?_cons_succ] at hb
        cases ha
        cases l with
        | nil => simp at hb
        | cons t l' =>
          rw [List.getElem?_cons_zero] at hb
          injection hb with hb
          subst hb
          exact h1 t rfl
      | succ i =>
        rw [List.getElem?_cons_succ] at ha
        rw [List.getElem?_cons_succ] at hb
        exact (ih.mp h2) i a b ha hb
    · intro h
      constructor
      · intro b hb
        cases l with
        | nil => simp at hb
        | cons t l' =>
          rw [List.head?_cons, Option.mem_def] at hb
          injection hb with hb
          subst hb
          exact h 0 s t (by simp) (by simp)
      · apply ih.mpr
        intro i a b ha hb
        exact h (i + 1) a b (by rw [List.getElem?_cons_succ]; exact ha)
          (by rw [List.getElem?_cons_succ]; exact hb)

theorem wellOrdered_iff (l : List SpeakerSegment) :
    WellOrderedSegs l ↔
      ∀ (i : ℕ) (s : SpeakerSegment), l[i]? = some s → s.startTime ≤ s.endTime := by
  unfold WellOrderedSegs
  constructor
  · intro h i s hs
    have hmem : s ∈ l := by
      rw [List.mem_iff_getElem?]
      exact ⟨i, hs⟩
    exact h s hmem
  · intro h s hs
    rw [List.mem_iff_getElem?] at hs
    obtain ⟨i, hi⟩ := hs
    exact h i s hi

/-! ### Splice index lemmas (the Merger's list insertion, line 266-270) -/

theorem length_splice {α : Type} (l : List α) (k : ℕ) (x : α) (hk : k < l.length) :
    (l.take (k + 1) ++ [x] ++ l.drop (k + 1)).length = l.length + 1 := by
  simp [List.length_take, List.length_drop]
  omega

theorem getElem?_splice_le {α : Type} (l : List α) (k : ℕ) (x : α) (j : ℕ)
    (hk : k < l.length) (hj : j ≤ k) :
    (l.take (k + 1) ++ [x] ++ l.drop (k + 1))[j]? = l[j]? := by
  have ht : (l.take (k + 1)).length = k + 1 := by
    simp [List.length_take]; omega
  rw [List.getElem?_append_left (by simp [ht]; omega),
    List.getElem?_append_left (by omega),
    List.getElem?_take_of_lt (by omega)]

theorem getElem?_splice_insert {α : Type} (l : List α) (k : ℕ) (x : α)
    (hk : k < l.length) :
    (l.take (k + 1) ++ [x] ++ l.drop (k + 1))[k + 1]? = some x := by
  have ht : (l.take (k + 1)).length = k + 1 := by
    simp [List.length_take]; omega
  rw [List.getElem?_append_left (by simp [ht]),
    List.getElem?_append_right (by omega), ht]
  simp

theorem getElem?_splice_gt {α : Type} (l : List α) (k : ℕ) (x : α) (j : ℕ)
    (hk : k < l.length) (hj : k + 2 ≤ j) :
    (l.take (k + 1) ++ [x] ++ l.drop (k + 1))[j]? = l[j - 1]? := by
  have ht : (l.take (k + 1)).length = k + 1 := by
    simp [List.length_take]; omega
  rw [List.getElem?_append_right (by simp [ht]; omega),
    List.getElem?_drop]
  congr 1
  simp [ht]
  omega

/-! ### Cursor (advanceIdx) specification -/

theorem advanceIdx_spec (segs : List SpeakerSegment) (sc : ℚ) :
    ∀ (fuel idx j : ℕ), advanceIdx segs sc fuel idx = some j →
      idx ≤ j ∧ (∃ seg, segs[j]? = some seg ∧ sc ≤ seg.endTime) ∧
      ∀ (i : ℕ), idx ≤ i → i < j → ∀ s, segs[i]? = some s → s.endTime < sc := by
  intro fuel
  induction fuel with
  | zero =>
    intro idx j h
    simp [advanceIdx] at h
  | succ fuel ih =>
    intro idx j h
    unfold advanceIdx at h
    split at h
    · cases h
    · rename_i seg hidx
      split at h
      · rename_i hgt
        obtain ⟨h1, h2, h3⟩ := ih (idx + 1) j h
        refine ⟨by omega, h2, ?_⟩
        intro i hi1 hi2 s hs
        rcases Nat.eq_or_lt_of_le hi1 with heq | hlt
        · subst heq
          rw [hidx] at hs
          injection hs with hs
          subst hs
          exact hgt
        · exact h3 i hlt hi2 s hs
      · rename_i hgt
        injection h with h
        subst h
        refine ⟨le_refl _, ⟨seg, hidx, not_lt.mp hgt⟩, ?_⟩
        intro i hi1 hi2
        omega

theorem advanceIdx_isSome (segs : List SpeakerSegment) (sc : ℚ) :
    ∀ (fuel idx : ℕ),
      (∃ (m : ℕ) (s : SpeakerSegment), idx ≤ m ∧ segs[m]? = some s ∧ sc ≤ s.endTime) →
      segs.length + 1 - idx ≤ fuel →
      ∃ j, advanceIdx segs sc fuel idx = some j := by
  intro fuel
  induction fuel with
  | zero =>
    intro idx hex hfuel
    obtain ⟨m, s, hm1, hm2, _⟩ := hex
    have hmlen : m < segs.length := by
      rcases List.getElem?_eq_some_iff.mp hm2 with ⟨h, _⟩
      exact h
    omega
  | succ fuel ih =>
    intro idx hex hfuel
    obtain ⟨m, s, hm1, hm2, hm3⟩ := hex
    have hmlen : m < segs.length := by
      rcases List.getElem?_eq_some_iff.mp hm2 with ⟨h, _⟩
      exact h
    unfold advanceIdx
    split
    · rename_i hidx
      exfalso
      have hlen : segs.length ≤ idx := by
        by_contra hc
        push_neg at hc
        rw [List.getElem?_eq_getElem hc] at hidx
        cases hidx
      omega
    · rename_i seg hidx
      split
      · rename_i hgt
        apply ih (idx + 1)
        · refine ⟨m, s, ?_, hm2, hm3⟩
          rcases Nat.eq_or_lt_of_le hm1 with heq | hlt
          · subst heq
            rw [hidx] at hm2
            injection hm2 with hm2
            subst hm2
            exact absurd hm3 (not_le.mpr hgt)
          · omega
        · have hidxlen : idx < segs.length := by omega
          omega
      · exact ⟨idx, rfl⟩

/-! ### Per-scene-change step lemma: contiguity and ordering are preserved -/

theorem processSceneChange_step
    (segs : List SpeakerSegment) (idx0 : ℕ) (sc : ℚ)
    (out : List SpeakerSegment × ℕ)
    (h : processSceneChange (segs, idx0) sc = some out)
    (hC : ContigAt segs)
    (hW : ∀ (i : ℕ) (s : SpeakerSegment), segs[i]? = some s → s.startTime ≤ s.endTime)
    (hstart : ∀ s, segs[idx0]? = some s → s.startTime ≤ sc) :
    ContigAt out.1 ∧
    (∀ (i : ℕ) (s : SpeakerSegment), out.1[i]? = some s → s.startTime ≤ s.endTime) ∧
    (∀ s, out.1[out.2]? = some s → s.startTime ≤ sc) ∧
    segs.length ≤ out.1.length ∧ idx0 ≤ out.2 := by
  unfold processSceneChange at h
  dsimp only at h
  split at h
  · cases h
  · rename_i idx hadv
    obtain ⟨hle, ⟨segA, hsegA, hscle⟩, hscan⟩ := advanceIdx_spec segs sc _ idx0 idx hadv
    split at h
    · cases h
    · rename_i seg hseg
      have hsegeq : seg = segA := Option.some.inj (hseg.symm.trans hsegA)
      subst hsegeq
      have hidxlen : idx < segs.length := (List.getElem?_eq_some_iff.mp hseg).1
      have hscle' : sc ≤ seg.endTime := hscle
      have hstartIdx : seg.startTime ≤ sc := by
        rcases Nat.eq_or_lt_of_le hle with heq | hlt
        · subst heq
          exact hstart seg hseg
        · obtain ⟨prev, hprev⟩ : ∃ p, segs[idx - 1]? = some p := by
            have hl : idx - 1 < segs.length := by omega
            exact ⟨segs[idx - 1], List.getElem?_eq_getElem hl⟩
          have hpe : prev.endTime < sc := hscan (idx - 1) (by omega) (by omega) prev hprev
          have hps : prev.endTime = seg.startTime := by
            have hidc : idx - 1 + 1 = idx := by omega
            exact hC (idx - 1) prev seg hprev (by rw [hidc]; exact hseg)
          linarith
      split at h
      -- branch 1: snap the segment end
      · rename_i hb1
        split at h
        -- branch 1, idx is the last segment
        · rename_i hlast
          rw [List.length_set] at hlast
          cases h
          refine ⟨?_, ?_, ?_, ?_, hle⟩
          · intro i a b ha hb
            by_cases hi1 : i = idx
            · subst hi1
              rw [List.getElem?_set_ne (by omega)] at hb
              have hnone : segs[i + 1]? = none := by
                apply List.getElem?_eq_none
                omega
              rw [hnone] at hb
              cases hb
            · rw [List.getElem?_set_ne (fun hh => hi1 hh.symm)] at ha
              by_cases hi2 : i + 1 = idx
              · rw [hi2, List.getElem?_set_self hidxlen] at hb
                injection hb with hb
                subst hb
                show a.endTime = seg.startTime
                exact hC i a seg ha (by rw [hi2]; exact hseg)
              · rw [List.getElem?_set_ne (fun hh => hi2 hh.symm)] at hb
                exact hC i a b ha hb
          · intro i s hs
            by_cases hi : i = idx
            · subst hi
              rw [List.getElem?_set_self hidxlen] at hs
              injection hs with hs
              subst hs
              show seg.startTime ≤ sc
              exact hstartIdx
            · rw [List.getElem?_set_ne (fun hh => hi hh.symm)] at hs
              exact hW i s hs
          · intro s hs
            rw [List.getElem?_set_self hidxlen] at hs
            injection hs with hs
            subst hs
            show seg.startTime ≤ sc
            exact hstartIdx
          · rw [List.length_set]
        -- branch 1, a following segment exists
        · rename_i hlast
          rw [List.length_set] at hlast
          split at h
          · cases h
          · rename_i nxt hnxt
            rw [List.getElem?_set_ne (by omega)] at hnxt
            have hnxtlen : idx + 1 < segs.length := by omega
            have hcn : seg.endTime = nxt.startTime := hC idx seg nxt hseg hnxt
            cases h
            refine ⟨?_, ?_, ?_, ?_, hle⟩
            · intro i a b ha hb
              by_cases hi1 : i = idx
              · subst hi1
                rw [List.getElem?_set_ne (by omega), List.getElem?_set_self hidxlen] at ha
                rw [List.getElem?_set_self (by rw [List.length_set]; omega)] at hb
                injection ha with ha
                injection hb with hb
                subst ha
                subst hb
                rfl
              · by_cases hi2 : i = idx + 1
                · subst hi2
                  rw [List.getElem?_set_self (by rw [List.length_set]; omega)] at ha
                  rw [List.getElem?_set_ne (by omega), List.getElem?_set_ne (by omega)] at hb
                  injection ha with ha
                  subst ha
                  show nxt.endTime = b.startTime
                  exact hC (idx + 1) nxt b hnxt hb
                · rw [List.getElem?_set_ne (fun hh => hi2 hh.symm),
                    List.getElem?_set_ne (fun hh => hi1 hh.symm)] at ha
                  by_cases hi3 : i + 1 = idx
                  · rw [hi3] at hb
                    rw [List.getElem?_set_ne (by omega), List.getElem?_set_self hidxlen] at hb
                    injection hb with hb
                    subst hb
                    show a.endTime = seg.startTime
                    exact hC i a seg ha (by rw [hi3]; exact hseg)
                  · by_cases hi4 : i + 1 = idx + 1
                    · omega
                    · rw [List.getElem?_set_ne (fun hh => hi4 hh.symm),
                        List.getElem?_set_ne (fun hh => hi3 hh.symm)] at hb
                      exact hC i a b ha hb
            · intro i s hs
              by_cases hi1 : i = idx
              · subst hi1
                rw [List.getElem?_set_ne (by omega), List.getElem?_set_self hidxlen] at hs
                injection hs with hs
                subst hs
                show seg.startTime ≤ sc
                exact hstartIdx
              · by_cases hi2 : i = idx + 1
                · subst hi2
                  rw [List.getElem?_set_self (by rw [List.length_set]; omega)] at hs
                  injection hs with hs
                  subst hs
                  show sc ≤ nxt.endTime
                  have hwn : nxt.startTime ≤ nxt.endTime := hW (idx + 1) nxt hnxt
                  have hgt : sc < seg.endTime := by
                    have := hb1.1
                    linarith
                  linarith [hcn ▸ hgt]
                · rw [List.getElem?_set_ne (fun hh => hi2 hh.symm),
                    List.getElem?_set_ne (fun hh => hi1 hh.symm)] at hs
                  exact hW i s hs
            · intro s hs
              rw [List.getElem?_set_ne (by omega), List.getElem?_set_self hidxlen] at hs
              injection hs with hs
              subst hs
              show seg.startTime ≤ sc
              exact hstartIdx
            · rw [List.length_set, List.length_set]
      -- branch 2: snap the segment start
      · rename_i hb1
        split at h
        · rename_i hb2
          split at h
          -- branch 2, idx = 0
          · rename_i hz
            subst hz
            cases h
            refine ⟨?_, ?_, ?_, ?_, by omega⟩
            · intro i a b ha hb
              rw [List.getElem?_set_ne (by omega)] at hb
              by_cases hi : i = 0
              · subst hi
                rw [List.getElem?_set_self hidxlen] at ha
                injection ha with ha
                subst ha
                show seg.endTime = b.startTime
                exact hC 0 seg b hseg hb
              · rw [List.getElem?_set_ne (fun hh => hi hh.symm)] at ha
                exact hC i a b ha hb
            · intro i s hs
              by_cases hi : i = 0
              · subst hi
                rw [List.getElem?_set_self hidxlen] at hs
                injection hs with hs
                subst hs
                show sc ≤ seg.endTime
                exact hscle'
              · rw [List.getElem?_set_ne (fun hh => hi hh.symm)] at hs
                exact hW i s hs
            · intro s hs
              rw [List.getElem?_set_self hidxlen] at hs
              injection hs with hs
              subst hs
              show sc ≤ sc
              exact le_refl sc
            · rw [List.length_set]
          -- branch 2, idx > 0
          · rename_i hz
            split at h
            · cases h
            · rename_i prev hprev
              rw [List.getElem?_set_ne (by omega)] at hprev
              have hprevlen : idx - 1 < segs.length := by omega
              have hcp : prev.endTime = seg.startTime := by
                have hidc : idx - 1 + 1 = idx := by omega
                exact hC (idx - 1) prev seg hprev (by rw [hidc]; exact hseg)
              cases h
              refine ⟨?_, ?_, ?_, ?_, hle⟩
              · intro i a b ha hb
                by_cases hi1 : i = idx - 1
                · subst hi1
                  rw [List.getElem?_set_self (by rw [List.length_set]; omega)] at ha
                  have hidc : idx - 1 + 1 = idx := by omega
                  rw [hidc] at hb
                  rw [List.getElem?_set_ne (by omega), List.getElem?_set_self hidxlen] at hb
                  injection ha with ha
                  injection hb with hb
                  subst ha
                  subst hb
                  rfl
                · by_cases hi2 : i = idx
                  · subst hi2
                    rw [List.getElem?_set_ne (by omega), List.getElem?_set_self hidxlen] at ha
                    rw [List.getElem?_set_ne (by omega), List.getElem?_set_ne (by omega)] at hb
                    injection ha with ha
                    subst ha
                    show seg.endTime = b.startTime
                    exact hC i seg b hseg hb
                  · rw [List.getElem?_set_ne (fun hh => hi1 hh.symm),
                      List.getElem?_set_ne (fun hh => hi2 hh.symm)] at ha
                    by_cases hi3 : i + 1 = idx - 1
                    · rw [hi3, List.getElem?_set_self (by rw [List.length_set]; omega)] at hb
                      injection hb with hb
                      subst hb
                      show a.endTime = prev.startTime
                      exact hC i a prev ha (by rw [hi3]; exact hprev)
                    · by_cases hi4 : i + 1 = idx
                      · omega
                      · rw [List.getElem?_set_ne (fun hh => hi3 hh.symm),
                          List.getElem?_set_ne (fun hh => hi4 hh.symm)] at hb
                        exact hC i a b ha hb
              · intro i s hs
                by_cases hi1 : i = idx - 1
                · subst hi1
                  rw [List.getElem?_set_self (by rw [List.length_set]; omega)] at hs
                  injection hs with hs
                  subst hs
                  show prev.startTime ≤ sc
                  have hwp : prev.startTime ≤ prev.endTime := hW (idx - 1) prev hprev
                  have hlt : seg.startTime < sc := by
                    have := hb2.1
                    linarith
                  linarith [hcp ▸ hwp]
                · by_cases hi2 : i = idx
                  · subst hi2
                    rw [List.getElem?_set_ne (by omega), List.getElem?_set_self hidxlen] at hs
                    injection hs with hs
                    subst hs
                    show sc ≤ seg.endTime
                    exact hscle'
                  · rw [List.getElem?_set_ne (fun hh => hi1 hh.symm),
                      List.getElem?_set_ne (fun hh => hi2 hh.symm)] at hs
                    exact hW i s hs
              · intro s hs
                rw [List.getElem?_set_ne (by omega), List.getElem?_set_self hidxlen] at hs
                injection hs with hs
                subst hs
                show sc ≤ sc
                exact le_refl sc
              · rw [List.length_set, List.length_set]
        -- branch 3 and branch 4
        · rename_i hb2
          split at h
          -- branch 3: duplicate boundary, no-op
          · rename_i hb3
            cases h
            exact ⟨hC, hW, fun s hs => by
              rw [hseg] at hs
              injection hs with hs
              subst hs
              exact hstartIdx, le_refl _, hle⟩
          -- branch 4: split the segment
          · rename_i hb3
            cases h
            have hm1len : idx < (segs.set idx { seg with endTime := sc }).length := by
              rw [List.length_set]
              exact hidxlen
            refine ⟨?_, ?_, ?_, ?_, hle⟩
            · intro i a b ha hb
              by_cases hi1 : i ≤ idx
              · rw [getElem?_splice_le _ _ _ _ hm1len hi1] at ha
                by_cases hi2 : i = idx
                · subst hi2
                  rw [List.getElem?_set_self hidxlen] at ha
                  rw [getElem?_splice_insert _ _ _ hm1len] at hb
                  injection ha with ha
                  injection hb with hb
                  subst ha
                  subst hb
                  rfl
                · rw [List.getElem?_set_ne (fun hh => hi2 hh.symm)] at ha
                  have hi3 : i + 1 ≤ idx := by omega
                  rw [getElem?_splice_le _ _ _ _ hm1len hi3] at hb
                  by_cases hi4 : i + 1 = idx
                  · rw [hi4, List.getElem?_set_self hidxlen] at hb
                    injection hb with hb
                    subst hb
                    show a.endTime = seg.startTime
                    exact hC i a seg ha (by rw [hi4]; exact hseg)
                  · rw [List.getElem?_set_ne (fun hh => hi4 hh.symm)] at hb
                    exact hC i a b ha hb
              · by_cases hi2 : i = idx + 1
                · subst hi2
                  rw [getElem?_splice_insert _ _ _ hm1len] at ha
                  rw [getElem?_splice_gt _ _ _ _ hm1len (by omega)] at hb
                  have hbi : idx + 1 + 1 - 1 = idx + 1 := by omega
                  rw [hbi, List.getElem?_set_ne (by omega)] at hb
                  injection ha with ha
                  subst ha
                  show seg.endTime = b.startTime
                  exact hC idx seg b hseg hb
                · have hi3 : idx + 2 ≤ i := by omega
                  rw [getElem?_splice_gt _ _ _ _ hm1len hi3] at ha
                  rw [getElem?_splice_gt _ _ _ _ hm1len (by omega)] at hb
                  rw [List.getElem?_set_ne (by omega)] at ha
                  rw [List.getElem?_set_ne (by omega)] at hb
                  have hbi : i + 1 - 1 = i - 1 + 1 := by omega
                  rw [hbi] at hb
                  exact hC (i - 1) a b ha hb
            · intro i s hs
              by_cases hi1 : i ≤ idx
              · rw [getElem?_splice_le _ _ _ _ hm1len hi1] at hs
                by_cases hi2 : i = idx
                · subst hi2
                  rw [List.getElem?_set_self hidxlen] at hs
                  injection hs with hs
                  subst hs
                  show seg.startTime ≤ sc
                  exact hstartIdx
                · rw [List.getElem?_set_ne (fun hh => hi2 hh.symm)] at hs
                  exact hW i s hs
              · by_cases hi2 : i = idx + 1
                · subst hi2
                  rw [getElem?_splice_insert _ _ _ hm1len] at hs
                  injection hs with hs
                  subst hs
                  show sc ≤ seg.endTime
                  exact hscle'
                · rw [getElem?_splice_gt _ _ _ _ hm1len (by omega)] at hs
                  rw [List.getElem?_set_ne (by omega)] at hs
                  exact hW (i - 1) s hs
            · intro s hs
              rw [getElem?_splice_le _ _ _ _ hm1len (le_refl idx),
                List.getElem?_set_self hidxlen] at hs
              injection hs with hs
              subst hs
              show seg.startTime ≤ sc
              exact hstartIdx
            · rw [length_splice _ _ _ hm1len, List.length_set]
              omega

/-! ### Per-scene-change step lemma: outer bounds are preserved away from the
snapping windows -/

theorem processSceneChange_bounds
    (segs : List SpeakerSegment) (idx0 : ℕ) (sc : ℚ)
    (out : List SpeakerSegment × ℕ)
    (h : processSceneChange (segs, idx0) sc = some out)
    (a b : ℚ)
    (hfirst : segs[0]?.map (·.startTime) = some a)
    (hlast : segs[segs.length - 1]?.map (·.endTime) = some b)
    (hna : ¬(a < sc ∧ sc < a + 0.25))
    (hnb : ¬(b - 0.25 < sc ∧ sc < b)) :
    out.1[0]?.map (·.startTime) = some a ∧
    out.1[out.1.length - 1]?.map (·.endTime) = some b := by
  obtain ⟨s0, hs0, hs0a⟩ := Option.map_eq_some'.mp hfirst
  obtain ⟨sl, hsl, hslb⟩ := Option.map_eq_some'.mp hlast
  unfold processSceneChange at h
  dsimp only at h
  split at h
  · cases h
  · rename_i idx hadv
    obtain ⟨hle, ⟨segA, hsegA, hscle⟩, hscan⟩ := advanceIdx_spec segs sc _ idx0 idx hadv
    split at h
    · cases h
    · rename_i seg hseg
      have hsegeq : seg = segA := Option.some.inj (hseg.symm.trans hsegA)
      subst hsegeq
      have hidxlen : idx < segs.length := (List.getElem?_eq_some_iff.mp hseg).1
      split at h
      -- branch 1: snap the segment end
      · rename_i hb1
        split at h
        -- branch 1 at the last segment contradicts the no-snap-near-b hypothesis
        · rename_i hlastidx
          rw [List.length_set] at hlastidx
          exfalso
          have hsegl : seg = sl := by
            rw [hlastidx] at hseg
            exact Option.some.inj (hseg.symm.trans hsl)
          apply hnb
          constructor
          · rw [← hslb, ← hsegl]
            linarith [hb1.2]
          · rw [← hslb, ← hsegl]
            linarith [hb1.1]
        · rename_i hlastidx
          rw [List.length_set] at hlastidx
          split at h
          · cases h
          · rename_i nxt hnxt
            rw [List.getElem?_set_ne (by omega)] at hnxt
            cases h
            have hlen2 : ((segs.set idx { seg with endTime := sc }).set (idx + 1)
                { nxt with startTime := sc }).length = segs.length := by
              rw [List.length_set, List.length_set]
            constructor
            · show ((segs.set idx { seg with endTime := sc }).set (idx + 1)
                { nxt with startTime := sc })[0]?.map (·.startTime) = some a
              by_cases hz : idx = 0
              · subst hz
                rw [List.getElem?_set_ne (by omega), List.getElem?_set_self hidxlen]
                have : s0 = seg := Option.some.inj (hs0.symm.trans hseg)
                subst this
                simp [← hs0a]
              · rw [List.getElem?_set_ne (by omega), List.getElem?_set_ne (by omega), hs0]
                simp [hs0a]
            · rw [hlen2]
              show ((segs.set idx { seg with endTime := sc }).set (idx + 1)
                { nxt with startTime := sc })[segs.length - 1]?.map (·.endTime) = some b
              by_cases hn1 : idx + 1 = segs.length - 1
              · rw [← hn1, List.getElem?_set_self (by rw [List.length_set]; omega)]
                have hnxtl : nxt = sl := by
                  rw [hn1] at hnxt
                  exact Option.some.inj (hnxt.symm.trans hsl)
                subst hnxtl
                simp [← hslb]
              · rw [List.getElem?_set_ne (by omega), List.getElem?_set_ne (by omega), hsl]
                simp [hslb]
      -- branch 2: snap the segment start
      · rename_i hb1
        split at h
        · rename_i hb2
          split at h
          -- branch 2 at segment 0 contradicts the no-snap-near-a hypothesis
          · rename_i hz
            exfalso
            have hseg0 : seg = s0 := by
              rw [hz] at hseg
              exact Option.some.inj (hseg.symm.trans hs0)
            apply hna
            constructor
            · rw [← hs0a, ← hseg0]
              linarith [hb2.1]
            · rw [← hs0a, ← hseg0]
              linarith [hb2.2]
          · rename_i hz
            split at h
            · cases h
            · rename_i prev hprev
              rw [List.getElem?_set_ne (by omega)] at hprev
              cases h
              have hlen2 : ((segs.set idx { seg with startTime := sc }).set (idx - 1)
                  { prev with endTime := sc }).length = segs.length := by
                rw [List.length_set, List.length_set]
              constructor
              · show ((segs.set idx { seg with startTime := sc }).set (idx - 1)
                  { prev with endTime := sc })[0]?.map (·.startTime) = some a
                by_cases hp0 : idx - 1 = 0
                · rw [← hp0, List.getElem?_set_self (by rw [List.length_set]; omega)]
                  have hps : prev = s0 := by
                    rw [hp0] at hprev
                    exact Option.some.inj (hprev.symm.trans hs0)
                  subst hps
                  simp [← hs0a]
                · rw [List.getElem?_set_ne (by omega), List.getElem?_set_ne (by omega), hs0]
                  simp [hs0a]
              · rw [hlen2]
                show ((segs.set idx { seg with startTime := sc }).set (idx - 1)
                  { prev with endTime := sc })[segs.length - 1]?.map (·.endTime) = some b
                by_cases hil : idx = segs.length - 1
                · rw [← hil, List.getElem?_set_ne (by omega),
                    List.getElem?_set_self hidxlen]
                  have hsegl : seg = sl := by
                    rw [hil] at hseg
                    exact Option.some.inj (hseg.symm.trans hsl)
                  subst hsegl
                  simp [← hslb]
                · rw [List.getElem?_set_ne (by omega), List.getElem?_set_ne (by omega), hsl]
                  simp [hslb]
        -- branch 3 and branch 4
        · rename_i hb2
          split at h
          · cases h
            exact ⟨hfirst, hlast⟩
          · rename_i hb3
            cases h
            have hm1len : idx < (segs.set idx { seg with endTime := sc }).length := by
              rw [List.length_set]
              exact hidxlen
            have hlenspl : ((segs.set idx { seg with endTime := sc }).take (idx + 1) ++
                [({ speakers := seg.speakers, startTime := sc, endTime := seg.endTime } : SpeakerSegment)] ++
                (segs.set idx { seg with endTime := sc }).drop (idx + 1)).length
                = segs.length + 1 := by
              rw [length_splice _ _ _ hm1len, List.length_set]
            constructor
            · show ((segs.set idx { seg with endTime := sc }).take (idx + 1) ++
                [({ speakers := seg.speakers, startTime := sc, endTime := seg.endTime } : SpeakerSegment)] ++
                (segs.set idx { seg with endTime := sc }).drop (idx + 1))[0]?.map
                  (·.startTime) = some a
              rw [getElem?_splice_le _ _ _ _ hm1len (by omega)]
              by_cases hz : idx = 0
              · subst hz
                rw [List.getElem?_set_self hidxlen]
                have : s0 = seg := Option.some.inj (hs0.symm.trans hseg)
                subst this
                simp [← hs0a]
              · rw [List.getElem?_set_ne (by omega), hs0]
                simp [hs0a]
            · rw [hlenspl]
              show ((segs.set idx { seg with endTime := sc }).take (idx + 1) ++
                [({ speakers := seg.speakers, startTime := sc, endTime := seg.endTime } : SpeakerSegment)] ++
                (segs.set idx { seg with endTime := sc }).drop (idx + 1))[segs.length + 1 - 1]?.map
                  (·.endTime) = some b
              by_cases hil : idx = segs.length - 1
              · have hidc : segs.length + 1 - 1 = idx + 1 := by omega
                rw [hidc, getElem?_splice_insert _ _ _ hm1len]
                have hsegl : seg = sl := by
                  rw [hil] at hseg
                  exact Option.some.inj (hseg.symm.trans hsl)
                subst hsegl
                simp [← hslb]
              · have hidc : segs.length + 1 - 1 = segs.length := by omega
                rw [hidc, getElem?_splice_gt _ _ _ _ hm1len (by omega)]
                have hidc2 : segs.length - 1 = segs.length - 1 := rfl
                rw [show segs.length - 1 = segs.length - 1 from rfl] at hsl
                have : segs.length - 1 < segs.length := by omega
                rw [show (segs.length : ℕ) - 1 = segs.length - 1 from rfl]
                rw [List.getElem?_set_ne (by omega), hsl]
                simp [hslb]

/-! ### Folding the step over the scene-change list -/

theorem mergeFoldInvariant :
    ∀ (scs : List ℚ) (segs : List SpeakerSegment) (idx0 : ℕ)
      (res : List SpeakerSegment × ℕ) (a b : ℚ),
      scs.foldlM processSceneChange (segs, idx0) = some res →
      List.Pairwise (· ≤ ·) scs →
      ContigAt segs →
      (∀ (i : ℕ) (s : SpeakerSegment), segs[i]? = some s → s.startTime ≤ s.endTime) →
      (∀ sc ∈ scs, ∀ s, segs[idx0]? = some s → s.startTime ≤ sc) →
      segs[0]?.map (·.startTime) = some a →
      segs[segs.length - 1]?.map (·.endTime) = some b →
      (∀ sc ∈ scs, ¬(a < sc ∧ sc < a + 0.25)) →
      (∀ sc ∈ scs, ¬(b - 0.25 < sc ∧ sc < b)) →
      ContigAt res.1 ∧
      (∀ (i : ℕ) (s : SpeakerSegment), res.1[i]? = some s → s.startTime ≤ s.endTime) ∧
      segs.length ≤ res.1.length ∧
      res.1[0]?.map (·.startTime) = some a ∧
      res.1[res.1.length - 1]?.map (·.endTime) = some b := by
  intro scs
  induction scs with
  | nil =>
    intro segs idx0 res a b h _ hC hW _ hfirst hlast _ _
    rw [List.foldlM_nil] at h
    injection h with h
    subst h
    exact ⟨hC, hW, le_refl _, hfirst, hlast⟩
  | cons sc rest ih =>
    intro segs idx0 res a b h hsort hC hW hge hfirst hlast hna hnb
    rw [List.foldlM_cons] at h
    cases hstep : processSceneChange (segs, idx0) sc with
    | none =>
      rw [hstep] at h
      cases h
    | some st1 =>
      rw [hstep] at h
      have h' : rest.foldlM processSceneChange st1 = some res := h
      obtain ⟨hsort1, hsort2⟩ := List.pairwise_cons.mp hsort
      obtain ⟨hC1, hW1, hcur1, hlen1, _⟩ :=
        processSceneChange_step segs idx0 sc st1 hstep hC hW
          (fun s hs => hge sc (by simp) s hs)
      obtain ⟨hfirst1, hlast1⟩ :=
        processSceneChange_bounds segs idx0 sc st1 hstep a b hfirst hlast
          (hna sc (by simp)) (hnb sc (by simp))
      have hge1 : ∀ sc' ∈ rest, ∀ s, st1.1[st1.2]? = some s → s.startTime ≤ sc' :=
        fun sc' hsc' s hs => le_trans (hcur1 s hs) (hsort1 sc' hsc')
      obtain ⟨hC2, hW2, hlen2, hfirst2, hlast2⟩ :=
        ih st1.1 st1.2 res a b h' hsort2 hC1 hW1 hge1 hfirst1 hlast1
          (fun sc' hsc' => hna sc' (by simp [hsc']))
          (fun sc' hsc' => hnb sc' (by simp [hsc']))
      exact ⟨hC2, hW2, le_trans hlen1 hlen2, hfirst2, hlast2⟩

theorem mergeFoldContig :
    ∀ (scs : List ℚ) (segs : List SpeakerSegment) (idx0 : ℕ)
      (res : List SpeakerSegment × ℕ),
      scs.foldlM processSceneChange (segs, idx0) = some res →
      List.Pairwise (· ≤ ·) scs →
      ContigAt segs →
      (∀ (i : ℕ) (s : SpeakerSegment), segs[i]? = some s → s.startTime ≤ s.endTime) →
      (∀ sc ∈ scs, ∀ s, segs[idx0]? = some s → s.startTime ≤ sc) →
      ContigAt res.1 ∧
      (∀ (i : ℕ) (s : SpeakerSegment), res.1[i]? = some s → s.startTime ≤ s.endTime) := by
  intro scs
  induction scs with
  | nil =>
    intro segs idx0 res h _ hC hW _
    rw [List.foldlM_nil] at h
    injection h with h
    subst h
    exact ⟨hC, hW⟩
  | cons sc rest ih =>
    intro segs idx0 res h hsort hC hW hge
    rw [List.foldlM_cons] at h
    cases hstep : processSceneChange (segs, idx0) sc with
    | none =>
      rw [hstep] at h
      cases h
    | some st1 =>
      rw [hstep] at h
      have h' : rest.foldlM processSceneChange st1 = some res := h
      obtain ⟨hsort1, hsort2⟩ := List.pairwise_cons.mp hsort
      obtain ⟨hC1, hW1, hcur1, _, _⟩ :=
        processSceneChange_step segs idx0 sc st1 hstep hC hW
          (fun s hs => hge sc (by simp) s hs)
      have hge1 : ∀ sc' ∈ rest, ∀ s, st1.1[st1.2]? = some s → s.startTime ≤ sc' :=
        fun sc' hsc' s hs => le_trans (hcur1 s hs) (hsort1 sc' hsc')
      exact ih st1.1 st1.2 res h' hsort2 hC1 hW1 hge1

/-! ### C8 machinery: a scene change equal to an existing end boundary -/

theorem endsMono (segs : List SpeakerSegment) (hC : ContigAt segs)
    (hW : ∀ (i : ℕ) (s : SpeakerSegment), segs[i]? = some s → s.startTime ≤ s.endTime) :
    ∀ (d i : ℕ) (s t : SpeakerSegment), segs[i]? = some s → segs[i + d]? = some t →
      s.endTime ≤ t.endTime := by
  intro d
  induction d with
  | zero =>
    intro i s t hs ht
    rw [Nat.add_zero] at ht
    have : s = t := Option.some.inj (hs.symm.trans ht)
    subst this
    exact le_refl _
  | succ d ihd =>
    intro i s t hs ht
    have hlen : i + d < segs.length := by
      have := (List.getElem?_eq_some_iff.mp ht).1
      omega
    obtain ⟨u, hu⟩ : ∃ u, segs[i + d]? = some u :=
      ⟨segs[i + d], List.getElem?_eq_getElem hlen⟩
    have h1 : s.endTime ≤ u.endTime := ihd i s u hs hu
    have h2 : u.endTime = t.startTime := by
      apply hC (i + d) u t hu
      rw [show i + d + 1 = i + (d + 1) from by omega]
      exact ht
    have h3 : t.startTime ≤ t.endTime := hW (i + (d + 1)) t ht
    linarith

theorem processSceneChange_c8_step
    (segs : List SpeakerSegment) (idx0 : ℕ) (sc : ℚ)
    (hC : ContigAt segs)
    (hW : ∀ (i : ℕ) (s : SpeakerSegment), segs[i]? = some s → s.startTime ≤ s.endTime)
    (hm : ∃ (m : ℕ) (s : SpeakerSegment), idx0 ≤ m ∧ segs[m]? = some s ∧ s.endTime = sc) :
    ∃ (segs1 : List SpeakerSegment) (idx1 : ℕ),
      processSceneChange (segs, idx0) sc = some (segs1, idx1) ∧
      segs1.length = segs.length ∧ idx0 ≤ idx1 ∧
      (∀ q, sc ≤ q →
        (∃ (m : ℕ) (s : SpeakerSegment), idx0 ≤ m ∧ segs[m]? = some s ∧ s.endTime = q) →
        (∃ (m : ℕ) (s : SpeakerSegment), idx1 ≤ m ∧ segs1[m]? = some s ∧ s.endTime = q)) := by
  obtain ⟨m, sm, hm1, hm2, hm3⟩ := hm
  obtain ⟨j, hadv⟩ := advanceIdx_isSome segs sc (segs.length + 1) idx0
    ⟨m, sm, hm1, hm2, le_of_eq hm3.symm⟩ (by omega)
  obtain ⟨hle, ⟨seg, hseg, hscle⟩, hscan⟩ := advanceIdx_spec segs sc _ idx0 j hadv
  have hjlen : j < segs.length := (List.getElem?_eq_some_iff.mp hseg).1
  have hendj : seg.endTime = sc := by
    rcases le_or_lt j m with hjm | hmj
    · have hmono : seg.endTime ≤ sm.endTime := by
        apply endsMono segs hC hW (m - j) j seg sm hseg
        rw [show j + (m - j) = m from by omega]
        exact hm2
      rw [hm3] at hmono
      linarith
    · exfalso
      have := hscan m hm1 hmj sm hm2
      rw [hm3] at this
      exact lt_irrefl sc this
  have htrans : ∀ q, sc ≤ q →
      (∃ (m' : ℕ) (s' : SpeakerSegment), idx0 ≤ m' ∧ segs[m']? = some s' ∧ s'.endTime = q) →
      ∃ (m' : ℕ) (s' : SpeakerSegment), j ≤ m' ∧ segs[m']? = some s' ∧ s'.endTime = q := by
    intro q hq hex
    obtain ⟨m', s', h1, h2, h3⟩ := hex
    refine ⟨m', s', ?_, h2, h3⟩
    by_contra hc
    push_neg at hc
    have := hscan m' h1 hc s' h2
    rw [h3] at this
    linarith
  have hb1false : ¬(0 < seg.endTime - sc ∧ seg.endTime - sc < 0.25) := by
    rw [hendj]
    rintro ⟨hh, _⟩
    linarith
  by_cases hb2 : 0 < sc - seg.startTime ∧ sc - seg.startTime < 0.25
  · by_cases hz : j = 0
    · refine ⟨segs.set j { seg with startTime := sc }, j, ?_, by rw [List.length_set], hle, ?_⟩
      · unfold processSceneChange
        dsimp only
        simp only [hadv]
        simp only [hseg]
        rw [if_neg hb1false, if_pos hb2, if_pos hz]
      · intro q hq hex
        obtain ⟨m', s', h1, h2, h3⟩ := htrans q hq hex
        by_cases hmj : m' = j
        · refine ⟨j, { seg with startTime := sc }, le_refl j, ?_, ?_⟩
          · rw [List.getElem?_set_self hjlen]
          · show seg.endTime = q
            have hs' : s' = seg := by
              rw [hmj] at h2
              exact Option.some.inj (h2.symm.trans hseg)
            rw [← h3, hs']
        · refine ⟨m', s', h1, ?_, h3⟩
          rw [List.getElem?_set_ne (by omega)]
          exact h2
    · obtain ⟨prev, hprev⟩ : ∃ p, segs[j - 1]? = some p :=
        ⟨segs[j - 1], List.getElem?_eq_getElem (by omega)⟩
      refine ⟨(segs.set j { seg with startTime := sc }).set (j - 1)
        { prev with endTime := sc }, j, ?_, by rw [List.length_set, List.length_set],
        hle, ?_⟩
      · unfold processSceneChange
        dsimp only
        simp only [hadv]
        simp only [hseg]
        rw [if_neg hb1false, if_pos hb2, if_neg hz]
        have hprev' : (segs.set j { seg with startTime := sc })[j - 1]? = some prev := by
          rw [List.getElem?_set_ne (by omega)]
          exact hprev
        simp only [hprev']
      · intro q hq hex
        obtain ⟨m', s', h1, h2, h3⟩ := htrans q hq hex
        by_cases hmj : m' = j
        · refine ⟨j, { seg with startTime := sc }, le_refl j, ?_, ?_⟩
          · rw [List.getElem?_set_ne (by omega), List.getElem?_set_self hjlen]
          · show seg.endTime = q
            have hs' : s' = seg := by
              rw [hmj] at h2
              exact Option.some.inj (h2.symm.trans hseg)
            rw [← h3, hs']
        · refine ⟨m', s', h1, ?_, h3⟩
          rw [List.getElem?_set_ne (by omega), List.getElem?_set_ne (by omega)]
          exact h2
  · refine ⟨segs, j, ?_, rfl, hle, fun q hq hex => htrans q hq hex⟩
    unfold processSceneChange
    dsimp only
    simp only [hadv]
    simp only [hseg]
    rw [if_neg hb1false, if_neg hb2, if_pos hendj.symm]

theorem c8FoldInvariant :
    ∀ (scs : List ℚ) (segs : List SpeakerSegment) (idx0 : ℕ),
      List.Pairwise (· ≤ ·) scs →
      ContigAt segs →
      (∀ (i : ℕ) (s : SpeakerSegment), segs[i]? = some s → s.startTime ≤ s.endTime) →
      (∀ sc ∈ scs, ∃ (m : ℕ) (s : SpeakerSegment),
        idx0 ≤ m ∧ segs[m]? = some s ∧ s.endTime = sc) →
      ∃ res : List SpeakerSegment × ℕ,
        scs.foldlM processSceneChange (segs, idx0) = some res ∧
        res.1.length = segs.length := by
  intro scs
  induction scs with
  | nil =>
    intro segs idx0 _ _ _ _
    exact ⟨(segs, idx0), rfl, rfl⟩
  | cons sc rest ih =>
    intro segs idx0 hsort hC hW hex
    obtain ⟨hsort1, hsort2⟩ := List.pairwise_cons.mp hsort
    obtain ⟨m, sm, hm1, hm2, hm3⟩ := hex sc (by simp)
    obtain ⟨segs1, idx1, hpc, hlen, hle1, htr⟩ :=
      processSceneChange_c8_step segs idx0 sc hC hW ⟨m, sm, hm1, hm2, hm3⟩
    have hstart : ∀ s, segs[idx0]? = some s → s.startTime ≤ sc := by
      intro s hs
      have h1 : s.startTime ≤ s.endTime := hW idx0 s hs
      have h2 : s.endTime ≤ sm.endTime := by
        apply endsMono segs hC hW (m - idx0) idx0 s sm hs
        rw [show idx0 + (m - idx0) = m from by omega]
        exact hm2
      rw [hm3] at h2
      linarith
    obtain ⟨hC1, hW1, _, _, _⟩ :=
      processSceneChange_step segs idx0 sc (segs1, idx1) hpc hC hW hstart
    have hex1 : ∀ sc' ∈ rest, ∃ (m' : ℕ) (s' : SpeakerSegment),
        idx1 ≤ m' ∧ segs1[m']? = some s' ∧ s'.endTime = sc' := by
      intro sc' hsc'
      exact htr sc' (hsort1 sc' hsc') (hex sc' (by simp [hsc']))
    obtain ⟨res, hres, hlen2⟩ := ih segs1 idx1 hsort2 hC1 hW1 hex1
    refine ⟨res, ?_, by rw [hlen2, hlen]⟩
    rw [List.foldlM_cons, hpc]
    exact hres

/-- C8 (amended): merging a sorted scene-change list whose every instant
exactly equals some segment's endTime never raises and produces no new
segments (same segment count; boundaries equal to the overall start of the
timeline are excluded, see the counterexample). -/
theorem c8_end_boundary_scene_changes_add_no_segments
    (segs : List SpeakerSegment) (scs : List ℚ)
    (hC : Contig segs) (hW : WellOrderedSegs segs)
    (hsort : List.Pairwise (· ≤ ·) scs)
    (hend : ∀ sc ∈ scs, sc ∈ segs.map (·.endTime)) :
    ∃ out, mergeSceneChangeAndSpeakerSegments segs scs = some out ∧
      out.length = segs.length := by
  have hex : ∀ sc ∈ scs, ∃ (m : ℕ) (s : SpeakerSegment),
      (0 : ℕ) ≤ m ∧ segs[m]? = some s ∧ s.endTime = sc := by
    intro sc hsc
    obtain ⟨s, hs, hse⟩ := List.mem_map.mp (hend sc hsc)
    obtain ⟨m, hm⟩ := List.mem_iff_getElem?.mp hs
    exact ⟨m, s, Nat.zero_le m, hm, hse⟩
  obtain ⟨res, hres, hlen⟩ := c8FoldInvariant scs segs 0 hsort
    ((contig_iff_contigAt _).mp hC) ((wellOrdered_iff _).mp hW) hex
  refine ⟨res.1, ?_, hlen⟩
  unfold mergeSceneChangeAndSpeakerSegments
  rw [hres]
  rfl

/-- C8 counterexample: the instant 0 exactly equals an existing segment
boundary (the first segment's startTime), yet merging it splits the segment:
the output has 2 segments where the input had 1, refuting the claim that
boundary-matching scene changes produce no new segments. -/
theorem c8_counterexample :
    mergeSceneChangeAndSpeakerSegments [⟨[0], 0, 10⟩] [0]
        = some [⟨[0], 0, 0⟩, ⟨[0], 0, 10⟩] ∧
      (mergeSceneChangeAndSpeakerSegments [⟨[0], 0, 10⟩] [0]).map List.length
        = some 2 ∧
      ([⟨[0], 0, 10⟩] : List SpeakerSegment).length = 1 := by
  refine ⟨by with_unfolding_all decide, by with_unfolding_all decide, rfl⟩

/-- C8 witness: a concrete two-segment timeline with scene changes at both
segment end boundaries, on which the amended theorem applies. -/
theorem c8_witness :
    Contig [⟨[0], 0, 10⟩, ⟨[1], 10, 20⟩] ∧
    WellOrderedSegs [⟨[0], 0, 10⟩, ⟨[1], 10, 20⟩] ∧
    List.Pairwise (· ≤ ·) [(10 : ℚ), 20] ∧
    (∀ sc ∈ [(10 : ℚ), 20],
      sc ∈ ([⟨[0], 0, 10⟩, ⟨[1], 10, 20⟩] : List SpeakerSegment).map (·.endTime)) ∧
    ∃ out, mergeSceneChangeAndSpeakerSegments
        [⟨[0], 0, 10⟩, ⟨[1], 10, 20⟩] [10, 20] = some out ∧
      out.length = ([⟨[0], 0, 10⟩, ⟨[1], 10, 20⟩] : List SpeakerSegment).length :=
  ⟨by unfold Contig; simp, by with_unfolding_all decide,
    by with_unfolding_all decide, by with_unfolding_all decide,
    c8_end_boundary_scene_changes_add_no_segments _ _ (by unfold Contig; simp)
      (by with_unfolding_all decide) (by with_unfolding_all decide)
      (by with_unfolding_all decide)⟩

/-- C1 (amended): for valid input (contiguous ordered speaker segments and an
ascending scene-change list starting at or after the first segment's start),
whenever the Timeline Merger returns a result at all, that result is
contiguous (segment[i].endTime = segment[i+1].startTime for every i) and
ordered (each startTime at most its endTime) - unconditionally; and, as a
separate conjunct, segment[0].startTime / segment[last].endTime still equal
the original bounds provided no scene change falls strictly inside the
0.25 s snapping window just above the original start bound or just below the
original end bound.  Without that proviso the bounds clause of the original
claim is false (see the counterexample), because the snapping branches of
lines 241-255 move the outer boundaries themselves; contiguity and ordering
hold regardless. -/
theorem c1_merger_output_contiguous_ordered
    (segs : List SpeakerSegment) (scs : List ℚ)
    (out : List SpeakerSegment) (a b : ℚ)
    (h : mergeSceneChangeAndSpeakerSegments segs scs = some out)
    (hC : Contig segs) (hW : WellOrderedSegs segs)
    (hsort : List.Pairwise (· ≤ ·) scs)
    (hfirst : segs[0]?.map (·.startTime) = some a)
    (hlast : segs[segs.length - 1]?.map (·.endTime) = some b)
    (hge : ∀ sc ∈ scs, a ≤ sc) :
    Contig out ∧ WellOrderedSegs out ∧
    ((∀ sc ∈ scs, ¬(a < sc ∧ sc < a + 0.25)) →
     (∀ sc ∈ scs, ¬(b - 0.25 < sc ∧ sc < b)) →
     out[0]?.map (·.startTime) = some a ∧
     out[out.length - 1]?.map (·.endTime) = some b) := by
  unfold mergeSceneChangeAndSpeakerSegments at h
  cases hfold : scs.foldlM processSceneChange (segs, 0) with
  | none =>
    rw [hfold] at h
    cases h
  | some res =>
    rw [hfold, Option.map_some'] at h
    injection h with h
    subst h
    obtain ⟨s0, hs0, hs0a⟩ := Option.map_eq_some'.mp hfirst
    have hge' : ∀ sc ∈ scs, ∀ s, segs[0]? = some s → s.startTime ≤ sc := by
      intro sc hsc s hs
      have hss : s = s0 := Option.some.inj (hs.symm.trans hs0)
      subst hss
      rw [hs0a]
      exact hge sc hsc
    obtain ⟨hC2, hW2⟩ :=
      mergeFoldContig scs segs 0 res hfold hsort
        ((contig_iff_contigAt segs).mp hC) ((wellOrdered_iff segs).mp hW) hge'
    refine ⟨(contig_iff_contigAt _).mpr hC2, (wellOrdered_iff _).mpr hW2, ?_⟩
    intro hna hnb
    obtain ⟨_, _, _, hfirst2, hlast2⟩ :=
      mergeFoldInvariant scs segs 0 res a b hfold hsort
        ((contig_iff_contigAt segs).mp hC) ((wellOrdered_iff segs).mp hW) hge'
        hfirst hlast hna hnb
    exact ⟨hfirst2, hlast2⟩

/-- C1 witness: speaker segments [0,10], [10,20] with a single scene change
at 5 (a plain split); the merger returns three contiguous segments and the
outer bounds 0 and 20 are untouched. -/
theorem c1_witness :
    mergeSceneChangeAndSpeakerSegments [⟨[0], 0, 10⟩, ⟨[1], 10, 20⟩] [5]
        = some [⟨[0], 0, 5⟩, ⟨[0], 5, 10⟩, ⟨[1], 10, 20⟩] ∧
    Contig [⟨[0], 0, 10⟩, ⟨[1], 10, 20⟩] ∧
    WellOrderedSegs [⟨[0], 0, 10⟩, ⟨[1], 10, 20⟩] ∧
    List.Pairwise (· ≤ ·) [(5 : ℚ)] ∧
    ([⟨[0], 0, 10⟩, ⟨[1], 10, 20⟩] : List SpeakerSegment)[0]?.map (·.startTime)
        = some 0 ∧
    ([⟨[0], 0, 10⟩, ⟨[1], 10, 20⟩] :
        List SpeakerSegment)[([⟨[0], 0, 10⟩, ⟨[1], 10, 20⟩] :
        List SpeakerSegment).length - 1]?.map (·.endTime) = some 20 ∧
    (∀ sc ∈ [(5 : ℚ)], (0 : ℚ) ≤ sc) ∧
    (Contig [⟨[0], 0, 5⟩, ⟨[0], 5, 10⟩, ⟨[1], 10, 20⟩] ∧
      WellOrderedSegs [⟨[0], 0, 5⟩, ⟨[0], 5, 10⟩, ⟨[1], 10, 20⟩] ∧
      ((∀ sc ∈ [(5 : ℚ)], ¬((0 : ℚ) < sc ∧ sc < 0 + 0.25)) →
       (∀ sc ∈ [(5 : ℚ)], ¬((20 : ℚ) - 0.25 < sc ∧ sc < 20)) →
       ([⟨[0], 0, 5⟩, ⟨[0], 5, 10⟩, ⟨[1], 10, 20⟩] :
           List SpeakerSegment)[0]?.map (·.startTime) = some 0 ∧
       ([⟨[0], 0, 5⟩, ⟨[0], 5, 10⟩, ⟨[1], 10, 20⟩] :
           List SpeakerSegment)[([⟨[0], 0, 5⟩, ⟨[0], 5, 10⟩, ⟨[1], 10, 20⟩] :
           List SpeakerSegment).length - 1]?.map (·.endTime) = some 20)) :=
  ⟨by with_unfolding_all decide, by unfold Contig; simp,
    by with_unfolding_all decide, by with_unfolding_all decide,
    by with_unfolding_all decide, by with_unfolding_all decide,
    by with_unfolding_all decide,
    c1_merger_output_contiguous_ordered [⟨[0], 0, 10⟩, ⟨[1], 10, 20⟩] [5]
      [⟨[0], 0, 5⟩, ⟨[0], 5, 10⟩, ⟨[1], 10, 20⟩] 0 20
      (by with_unfolding_all decide) (by unfold Contig; simp)
      (by with_unfolding_all decide) (by with_unfolding_all decide)
      (by with_unfolding_all decide) (by with_unfolding_all decide)
      (by with_unfolding_all decide)⟩

/-- C1 counterexample: with the single segment [0, 10] and the valid ordered
scene-change list [9.9], the merger's end-snapping branch (line 242 with the
cursor on the last segment) rewrites the last segment's endTime to 9.9, so
segment[last].endTime no longer equals the original input bound 10 - the
bounds clause of the claim is false as stated. -/
theorem c1_counterexample :
    mergeSceneChangeAndSpeakerSegments [⟨[0], 0, 10⟩] [(9.9 : ℚ)]
        = some [⟨[0], 0, 9.9⟩] ∧ (9.9 : ℚ) ≠ 10 := by
  exact ⟨by with_unfolding_all decide, by with_unfolding_all decide⟩

/-- C5: a scene change strictly past the last segment's endTime makes the
cursor while loop of lines 237-239 walk off the end of the segment list and
read speaker_segments[len], a Python IndexError (modelled as none): the code
crashes where the claim requires a harmless no-op. -/
theorem c5_scene_change_past_end_raises_index_error :
    mergeSceneChangeAndSpeakerSegments [⟨[0], 0, 10⟩] [11] = none := by
  with_unfolding_all decide

/-! ### C4: Capacity Planner -/

/-- C4 counterexample: a 6400 x 1250 video with 1000 frames and an
accelerator available.  Extraction needs exactly 3 CPU budgets
(24 000 000 000 bytes over 8 000 000 000), so the claimed ceiling formula
gives max(3, 1) = 3, but the code computes floor-division plus one on each
pool and returns 4. -/
theorem c4_counterexample :
    calcNBatches 6400 1250 true 1000 = 4 ∧
    claimedNBatches 6400 1250 true 1000 = 3 ∧
    calcNBatches 6400 1250 true 1000 ≠ claimedNBatches 6400 1250 true 1000 := by
  refine ⟨by with_unfolding_all decide, by with_unfolding_all decide,
    by with_unfolding_all decide⟩

/-- C4 (amended): on every input the Capacity Planner returns
max(extract_bytes // cpu_budget + 1, detect_bytes // accel_budget + 1) when
an accelerator is available and (extract_bytes + detect_bytes) // cpu_budget
+ 1 otherwise - floor division plus one on each pool rather than the exact
ceiling the claim states - and the result is always at least 1. -/
theorem c4_planner_floor_plus_one (vidWidth vidHeight numFrames : ℕ) (cuda : Bool) :
    calcNBatches vidWidth vidHeight cuda numFrames
        = amendedNBatches vidWidth vidHeight cuda numFrames ∧
    1 ≤ calcNBatches vidWidth vidHeight cuda numFrames := by
  unfold calcNBatches amendedNBatches
  cases cuda <;> simp

/-! ### C6 and C10: Segment Compactor -/

theorem mergeStep_length_le (vidWidth : ℕ) (segs : List XYSegment) (idx : ℕ) :
    (mergeStep vidWidth segs idx).1.length ≤ segs.length := by
  unfold mergeStep
  split
  · split
    · split
      · refine le_trans (List.Sublist.length_le (List.eraseIdx_sublist _ _)) ?_
        exact le_of_eq (List.length_set _ _ _)
      · exact le_of_eq (List.length_set _ _ _)
    · exact le_refl _
  · exact le_refl _

/-- C6 (amended): the Segment Compactor's output never has more segments
than its input.  The second half of the original claim - that no two
adjacent output segments satisfy both the same-x and same-y conditions - is
false (see the counterexample): the averaging overwrite of line 915 runs
even when the pair is not merged, and can pull a segment's x back within
tolerance of its already-passed left neighbour. -/
theorem c6_compactor_count_le (vidWidth : ℕ) (segments : List XYSegment) :
    (mergeIdenticalSegments vidWidth segments).length ≤ segments.length := by
  unfold mergeIdenticalSegments
  have hgen : ∀ (r : List ℕ) (st : List XYSegment × ℕ),
      st.1.length ≤ segments.length →
      ((r.foldl (fun st _ => mergeStep vidWidth st.1 st.2) st).1.length
        ≤ segments.length) := by
    intro r
    induction r with
    | nil => intro st h; exact h
    | cons x r ih =>
      intro st h
      rw [List.foldl_cons]
      exact ih _ (le_trans (mergeStep_length_le vidWidth st.1 st.2) h)
  exact hgen _ (segments, 0) (le_refl _)

/-- C6 counterexample: width 1000 (4 percent tolerance 40), segments with
x = 100, 140, 136 and equal y.  The pair (100, 140) differs by exactly 40 and
is passed; the pair (140, 136) is averaged to 138 and merged.  The final
output is x = 100 next to x = 138: |100 - 138| = 38 < 40 and the y values are
equal, so two adjacent output segments satisfy both conditions, refuting the
claim. -/
theorem c6_counterexample :
    mergeIdenticalSegments 1000
        [⟨[0], 0, 1, 100, 0⟩, ⟨[1], 1, 2, 140, 0⟩, ⟨[2], 2, 3, 136, 0⟩]
      = [⟨[0], 0, 1, 100, 0⟩, ⟨[1], 1, 3, 138, 0⟩] ∧
    ((((100 : ℤ) - 138).natAbs : ℚ) / (1000 : ℚ)) < 0.04 ∧
    ((0 : ℤ) = (0 : ℤ)) := by
  refine ⟨by with_unfolding_all decide, by with_unfolding_all decide, rfl⟩

/-- C10: when an adjacent pair satisfies the same-x condition but not the
same-y condition, the compactor still overwrites the left segment's x with
the floor average of the two x values, leaves every other field of both
segments unchanged (the set with a record update touching only x), does not
merge, and advances the cursor. -/
theorem c10_same_x_different_y_still_averages
    (vidWidth : ℕ) (segs : List XYSegment) (idx : ℕ) (cur nxt : XYSegment)
    (hc : segs[idx]? = some cur) (hn : segs[idx + 1]? = some nxt)
    (hx : (((cur.x - nxt.x).natAbs : ℚ) / (vidWidth : ℚ)) < 0.04)
    (hy : cur.y ≠ nxt.y) :
    mergeStep vidWidth segs idx
      = (segs.set idx
          ⟨cur.speakers, cur.startTime, cur.endTime, (cur.x + nxt.x).fdiv 2, cur.y⟩,
        idx + 1) := by
  unfold mergeStep
  simp only [hc, hn]
  rw [if_pos hx, if_neg hy]

/-- C10 witness: x values 100 and 103 on a 1000 pixel wide video (diff 3,
tolerance 40) with different y values: the left segment's x becomes 101 and
nothing else changes. -/
theorem c10_witness :
    ([⟨[0], 0, 1, 100, 0⟩, ⟨[1], 1, 2, 103, 5⟩] :
        List XYSegment)[0]? = some ⟨[0], 0, 1, 100, 0⟩ ∧
    ([⟨[0], 0, 1, 100, 0⟩, ⟨[1], 1, 2, 103, 5⟩] :
        List XYSegment)[0 + 1]? = some ⟨[1], 1, 2, 103, 5⟩ ∧
    ((((100 : ℤ) - 103).natAbs : ℚ) / (1000 : ℚ)) < 0.04 ∧
    ((0 : ℤ) ≠ (5 : ℤ)) ∧
    mergeStep 1000 [⟨[0], 0, 1, 100, 0⟩, ⟨[1], 1, 2, 103, 5⟩] 0
      = ([⟨[0], 0, 1, 101, 0⟩, ⟨[1], 1, 2, 103, 5⟩], 1) :=
  ⟨by with_unfolding_all decide, by with_unfolding_all decide,
    by with_unfolding_all decide, by with_unfolding_all decide, by
    have h := c10_same_x_different_y_still_averages 1000
      [⟨[0], 0, 1, 100, 0⟩, ⟨[1], 1, 2, 103, 5⟩] 0
      ⟨[0], 0, 1, 100, 0⟩ ⟨[1], 1, 2, 103, 5⟩
      (by with_unfolding_all decide) (by with_unfolding_all decide)
      (by with_unfolding_all decide) (by with_unfolding_all decide)
    rw [h]
    with_unfolding_all decide⟩

/-! ### C7: Crop Calculator -/

/-- C7: for every ROI and positive resize dimensions the crop corner is
exactly max(center - resize_dim // 2, 0) on each axis (so the returned x and
y are always nonnegative), and no clamping against the upper bound of the
source frame is performed - the formula is the entire behaviour, and the
width and height pass through untouched. -/
theorem c7_crop_clamped_below_only (roi : Rect) (resizeWidth resizeHeight : ℕ)
    (hw : 0 < resizeWidth) (hh : 0 < resizeHeight) :
    (calcCrop roi resizeWidth resizeHeight).x
        = max (roi.x + (⌊roi.width / 2⌋ : ℤ) - ((resizeWidth / 2 : ℕ) : ℚ)) 0 ∧
    (calcCrop roi resizeWidth resizeHeight).y
        = max (roi.y + (⌊roi.height / 2⌋ : ℤ) - ((resizeHeight / 2 : ℕ) : ℚ)) 0 ∧
    0 ≤ (calcCrop roi resizeWidth resizeHeight).x ∧
    0 ≤ (calcCrop roi resizeWidth resizeHeight).y ∧
    (calcCrop roi resizeWidth resizeHeight).width = (resizeWidth : ℚ) ∧
    (calcCrop roi resizeWidth resizeHeight).height = (resizeHeight : ℚ) :=
  ⟨rfl, rfl, le_max_right _ _, le_max_right _ _, rfl, rfl⟩

/-- C7 witness: an ROI near the right edge of a 1920 x 1080 source with a
608 x 1080 portrait target; the crop corner stays nonnegative and, with no
upper clamp, the computed x = 1546 even runs the 608-wide crop off the right
edge (1546 + 608 > 1920). -/
theorem c7_witness :
    0 < 608 ∧ 0 < 1080 ∧
    ((calcCrop ⟨1800, 200, 100, 120⟩ 608 1080).x
        = max ((1800 : ℚ) + ((⌊(100 : ℚ) / 2⌋ : ℤ) : ℚ) - (((608 / 2 : ℕ)) : ℚ)) 0 ∧
      (calcCrop ⟨1800, 200, 100, 120⟩ 608 1080).y
        = max ((200 : ℚ) + ((⌊(120 : ℚ) / 2⌋ : ℤ) : ℚ) - (((1080 / 2 : ℕ)) : ℚ)) 0 ∧
      0 ≤ (calcCrop ⟨1800, 200, 100, 120⟩ 608 1080).x ∧
      0 ≤ (calcCrop ⟨1800, 200, 100, 120⟩ 608 1080).y ∧
      (calcCrop ⟨1800, 200, 100, 120⟩ 608 1080).width = ((608 : ℕ) : ℚ) ∧
      (calcCrop ⟨1800, 200, 100, 120⟩ 608 1080).height = ((1080 : ℕ) : ℚ)) ∧
    (calcCrop ⟨1800, 200, 100, 120⟩ 608 1080).x + 608 > 1920 :=
  ⟨by decide, by decide,
    c7_crop_clamped_below_only ⟨1800, 200, 100, 120⟩ 608 1080
      (by decide) (by decide),
    by with_unfolding_all decide⟩

/-! ### C9: ROI sampling timestamps -/

theorem truncQ_of_nonneg (q : ℚ) (h : 0 ≤ q) : truncQ q = ⌊q⌋ := by
  unfold truncQ
  rw [if_neg (not_lt.mpr h)]

/-- C9: for every foundFace segment (fps > 0, firstFaceSec at most endTime),
given the contract of np.random.choice(range(1, frames_left),
num_samples - 1, replace=False) - num_samples - 1 distinct offsets, each in
[1, frames_left) - the sample timestamp list built by lines 634-640 has
exactly min(frames_left, 13) entries, its first entry is firstFaceSec, it is
strictly increasing (the chosen offsets are sorted and distinct and each
timestamp adds a positive offset over firstFaceSec), and every timestamp
lies inside the analysis window
[firstFaceSec, endSec - (endSec - firstFaceSec) / 8]. -/
theorem c9_roi_sampling_structure
    (chosen : List ℕ) (fps firstFaceSec endSec : ℚ)
    (hfps : 0 < fps) (hse : firstFaceSec ≤ endSec)
    (hlen : chosen.length
      = (min (segmentFramesLeft fps firstFaceSec endSec)
          (samplesPerSegment : ℤ)).toNat - 1)
    (hnd : chosen.Nodup)
    (hmem : ∀ k ∈ chosen, 1 ≤ k ∧
      (k : ℤ) < segmentFramesLeft fps firstFaceSec endSec) :
    (segmentDetectSecs chosen fps firstFaceSec).length
        = (min (segmentFramesLeft fps firstFaceSec endSec)
            (samplesPerSegment : ℤ)).toNat ∧
    (segmentDetectSecs chosen fps firstFaceSec).length ≤ samplesPerSegment ∧
    (segmentDetectSecs chosen fps firstFaceSec).head? = some firstFaceSec ∧
    List.Chain' (· < ·) (segmentDetectSecs chosen fps firstFaceSec) ∧
    ∀ t ∈ segmentDetectSecs chosen fps firstFaceSec,
      firstFaceSec ≤ t ∧ t ≤ segmentAnalyzeEndSec firstFaceSec endSec := by
  have hdelta : 0 ≤ segmentAnalyzeEndSec firstFaceSec endSec - firstFaceSec := by
    unfold segmentAnalyzeEndSec
    linarith
  have hflfloor : segmentFramesLeft fps firstFaceSec endSec
      = ⌊(segmentAnalyzeEndSec firstFaceSec endSec - firstFaceSec) * fps⌋ + 1 := by
    unfold segmentFramesLeft
    rw [truncQ_of_nonneg _ (by nlinarith)]
    exact Int.floor_add_one _
  have hfl1 : 1 ≤ segmentFramesLeft fps firstFaceSec endSec := by
    rw [hflfloor]
    have hfn : (0 : ℤ) ≤ ⌊(segmentAnalyzeEndSec firstFaceSec endSec - firstFaceSec) * fps⌋ :=
      Int.floor_nonneg.mpr (by nlinarith)
    omega
  have hperm := List.perm_insertionSort (· ≤ ·) chosen
  have hsortlen : (chosen.insertionSort (· ≤ ·)).length = chosen.length :=
    hperm.length_eq
  have hlenconc : (segmentDetectSecs chosen fps firstFaceSec).length
      = (min (segmentFramesLeft fps firstFaceSec endSec)
          (samplesPerSegment : ℤ)).toNat := by
    unfold segmentDetectSecs
    rw [List.length_cons, List.length_map, hsortlen, hlen]
    have hmin1 : 1 ≤ min (segmentFramesLeft fps firstFaceSec endSec)
        (samplesPerSegment : ℤ) := by
      unfold samplesPerSegment
      omega
    omega
  refine ⟨hlenconc, ?_, rfl, ?_, ?_⟩
  · rw [hlenconc]
    unfold samplesPerSegment
    omega
  · have hsorted : List.Sorted (· ≤ ·) (chosen.insertionSort (· ≤ ·)) :=
      List.sorted_insertionSort (· ≤ ·) chosen
    have hndsort : (chosen.insertionSort (· ≤ ·)).Nodup := hperm.symm.nodup hnd
    have hlt : List.Pairwise (· < ·) (chosen.insertionSort (· ≤ ·)) :=
      (List.Pairwise.and hsorted hndsort).imp
        (fun hab => lt_of_le_of_ne hab.1 hab.2)
    have hmapchain : List.Chain' (· < ·)
        ((chosen.insertionSort (· ≤ ·)).map
          (fun k : ℕ => firstFaceSec + (k : ℚ) / fps)) := by
      rw [List.chain'_map]
      refine hlt.chain'.imp ?_
      intro a b hab
      have hq : (a : ℚ) < (b : ℚ) := by exact_mod_cast hab
      have := (div_lt_div_right hfps).mpr hq
      linarith
    unfold segmentDetectSecs
    refine List.chain'_cons'.mpr ⟨?_, hmapchain⟩
    intro y hy
    rw [List.head?_map] at hy
    obtain ⟨k, hk1, hk2⟩ := Option.map_eq_some'.mp hy
    have hks : k ∈ chosen.insertionSort (· ≤ ·) := List.mem_of_mem_head? hk1
    have hkc : k ∈ chosen := hperm.mem_iff.mp hks
    have hk1le : 1 ≤ k := (hmem k hkc).1
    have hpos : 0 < (k : ℚ) / fps := by
      apply div_pos ?_ hfps
      exact_mod_cast hk1le
    rw [← hk2]
    linarith
  · intro t ht
    unfold segmentDetectSecs at ht
    rcases List.mem_cons.mp ht with rfl | hmm
    · exact ⟨le_refl _, by linarith⟩
    · obtain ⟨k, hks, rfl⟩ := List.mem_map.mp hmm
      have hkc : k ∈ chosen := hperm.mem_iff.mp hks
      obtain ⟨hk1le, hkfl⟩ := hmem k hkc
      have hkd : 0 ≤ (k : ℚ) / fps := div_nonneg (by positivity) hfps.le
      refine ⟨by linarith, ?_⟩
      have hkle : (k : ℤ) ≤ ⌊(segmentAnalyzeEndSec firstFaceSec endSec - firstFaceSec) * fps⌋ := by
        rw [hflfloor] at hkfl
        omega
      have hkq : (k : ℚ) ≤ (segmentAnalyzeEndSec firstFaceSec endSec - firstFaceSec) * fps := by
        have := Int.le_floor.mp hkle
        exact_mod_cast this
      have hdiv : (k : ℚ) / fps ≤ segmentAnalyzeEndSec firstFaceSec endSec - firstFaceSec :=
        (div_le_iff hfps).mpr hkq
      linarith

/-- C9 witness: fps = 1, firstFaceSec = 0, endTime = 16 (analysis window
[0, 14], frames_left = 15, num_samples = 13) with the 12 chosen offsets
12, 3, 1, 2, 4, ..., 11 given unsorted. -/
theorem c9_witness :
    (0 : ℚ) < 1 ∧ (0 : ℚ) ≤ 16 ∧
    ([12, 3, 1, 2, 4, 5, 6, 7, 8, 9, 10, 11] : List ℕ).length
        = (min (segmentFramesLeft 1 0 16) (samplesPerSegment : ℤ)).toNat - 1 ∧
    ([12, 3, 1, 2, 4, 5, 6, 7, 8, 9, 10, 11] : List ℕ).Nodup ∧
    (∀ k ∈ ([12, 3, 1, 2, 4, 5, 6, 7, 8, 9, 10, 11] : List ℕ),
      1 ≤ k ∧ (k : ℤ) < segmentFramesLeft 1 0 16) ∧
    ((segmentDetectSecs [12, 3, 1, 2, 4, 5, 6, 7, 8, 9, 10, 11] 1 0).length
        = (min (segmentFramesLeft 1 0 16) (samplesPerSegment : ℤ)).toNat ∧
      (segmentDetectSecs [12, 3, 1, 2, 4, 5, 6, 7, 8, 9, 10, 11] 1 0).length
        ≤ samplesPerSegment ∧
      (segmentDetectSecs [12, 3, 1, 2, 4, 5, 6, 7, 8, 9, 10, 11] 1 0).head?
        = some 0 ∧
      List.Chain' (· < ·)
        (segmentDetectSecs [12, 3, 1, 2, 4, 5, 6, 7, 8, 9, 10, 11] 1 0) ∧
      ∀ t ∈ segmentDetectSecs [12, 3, 1, 2, 4, 5, 6, 7, 8, 9, 10, 11] 1 0,
        (0 : ℚ) ≤ t ∧ t ≤ segmentAnalyzeEndSec 0 16) :=
  ⟨by with_unfolding_all decide, by with_unfolding_all decide,
    by with_unfolding_all decide, by decide, by with_unfolding_all decide,
    c9_roi_sampling_structure [12, 3, 1, 2, 4, 5, 6, 7, 8, 9, 10, 11] 1 0 16
      (by with_unfolding_all decide) (by with_unfolding_all decide)
      (by with_unfolding_all decide) (by decide) (by with_unfolding_all decide)⟩

/-! ### C3: the no-face error of the ROI Selector -/

theorem maxSimultaneous_foldl_general :
    ∀ (dets : List (Option (List Box))) (a : ℕ),
      dets.foldl (fun k d => match d with | none => k | some bs => max k bs.length) a
        = max a (dets.foldl
            (fun k d => match d with | none => k | some bs => max k bs.length) 0) := by
  intro dets
  induction dets with
  | nil =>
    intro a
    simp
  | cons d rest ih =>
    intro a
    rw [List.foldl_cons, List.foldl_cons, ih, ih
      ((fun k d => match d with | none => k | some bs => max k bs.length) 0 d)]
    cases d with
    | none => simp
    | some bs =>
      show max (max a bs.length) _ = max a (max (max 0 bs.length) _)
      omega

theorem maxSimultaneous_cons (d : Option (List Box)) (rest : List (Option (List Box))) :
    maxSimultaneous (d :: rest)
      = max (match d with | none => 0 | some bs => bs.length) (maxSimultaneous rest) := by
  unfold maxSimultaneous
  rw [List.foldl_cons, maxSimultaneous_foldl_general]
  cases d <;> simp

theorem boxList_cons (d : Option (List Box)) (rest : List (Option (List Box))) :
    boxList (d :: rest) = (match d with | none => [] | some bs => bs) ++ boxList rest := by
  cases d <;> simp [boxList, List.filterMap_cons]

theorem maxSimultaneous_eq_zero_iff (dets : List (Option (List Box))) :
    maxSimultaneous dets = 0 ↔ boxList dets = [] := by
  induction dets with
  | nil => simp [maxSimultaneous, boxList]
  | cons d rest ih =>
    rw [maxSimultaneous_cons, boxList_cons]
    cases d with
    | none => simpa using ih
    | some bs =>
      simp only [Nat.max_eq_zero_iff, List.append_eq_nil, ih, List.length_eq_zero]

theorem boxesWithFrames_enumFrom_length :
    ∀ (dets : List (Option (List Box))) (n : ℕ),
      ((List.enumFrom n dets).flatMap (fun p =>
        match p.2 with
        | none => []
        | some bs => bs.map (fun b => (b, p.1)))).length = (boxList dets).length := by
  intro dets
  induction dets with
  | nil => intro n; rfl
  | cons d rest ih =>
    intro n
    rw [List.enumFrom_cons, List.flatMap_cons, List.length_append, ih (n + 1),
      boxList_cons]
    cases d <;> simp

theorem boxesWithFrames_length (dets : List (Option (List Box))) :
    (boxesWithFrames dets).length = (boxList dets).length :=
  boxesWithFrames_enumFrom_length dets 0

theorem mapM_option_isSome {α β : Type} (f : α → Option β) :
    ∀ (l : List α), (∀ x ∈ l, (f x).isSome = true) → ∃ r, l.mapM f = some r := by
  intro l
  induction l with
  | nil =>
    intro _
    exact ⟨[], rfl⟩
  | cons a l ih =>
    intro h
    obtain ⟨b, hb⟩ := Option.isSome_iff_exists.mp (h a (by simp))
    obtain ⟨r, hr⟩ := ih (fun x hx => h x (by simp [hx]))
    refine ⟨b :: r, ?_⟩
    rw [List.mapM_cons, hb, hr]
    rfl

theorem kmeansGroup_nonempty (bwf : List (Box × ℕ)) (labels : List ℕ) (g : ℕ)
    (hlen : labels.length = bwf.length) (hg : g ∈ labels) :
    0 < (((bwf.zip labels).filter (fun q => q.2 == g)).map (·.1)).length := by
  obtain ⟨t, ht⟩ := List.mem_iff_getElem?.mp hg
  have htlen : t < labels.length := (List.getElem?_eq_some_iff.mp ht).1
  obtain ⟨p, hp⟩ : ∃ p, bwf[t]? = some p :=
    ⟨bwf.get ⟨t, by omega⟩, List.getElem?_eq_getElem (by omega)⟩
  have hz : (bwf.zip labels)[t]? = some (p, g) := by
    rw [List.getElem?_zip_eq_some]
    exact ⟨hp, ht⟩
  have hmem : (p, g) ∈ bwf.zip labels := List.mem_iff_getElem?.mpr ⟨t, hz⟩
  have hfil : (p, g) ∈ (bwf.zip labels).filter (fun q => q.2 == g) := by
    rw [List.mem_filter]
    exact ⟨hmem, by simp⟩
  rw [List.length_map]
  exact List.length_pos.mpr (List.ne_nil_of_mem hfil)

theorem fb_fold_isSome (gs : List (List (Box × ℕ))) :
    ∀ (acc : ℕ × Option Rect),
      (acc.2.isSome = true ∨ ∃ g ∈ gs, acc.1 < g.length) →
      ((gs.foldl (fun acc g =>
        if g.length > acc.1 then (g.length, some (avgBoxRect g)) else acc) acc).2).isSome
        = true := by
  induction gs with
  | nil =>
    intro acc h
    rcases h with h | ⟨g, hg, _⟩
    · exact h
    · simp at hg
  | cons g gs ih =>
    intro acc h
    rw [List.foldl_cons]
    by_cases hgt : g.length > acc.1
    · apply ih
      left
      rw [if_pos hgt]
      rfl
    · rw [if_neg hgt]
      apply ih
      rcases h with h | ⟨g', hg', hlt⟩
      · left
        exact h
      · rcases List.mem_cons.mp hg' with heq | hgs
        · subst heq
          omega
        · right
          exact ⟨g', hgs, hlt⟩

/-- C3: under the collaborator contracts (the detector clamp makes every
bounding-box component nonnegative; sklearn KMeans returns one label per box
and populates every one of the k clusters), the ROI Selector raises an error
exactly when the detections contain zero bounding boxes in total, and in
that case the error is the no-face-in-segment error - no region of interest
is produced and no fallback applies (the function returns the error instead
of a Rect).  Any segment with at least one detected box yields an ok
result. -/
theorem c3_no_face_error_iff_zero_boxes (marO : MarOracle) (kmO : KMeansOracle)
    (dets : List (Option (List Box)))
    (hnn : ∀ p ∈ boxesWithFrames dets,
      0 ≤ p.1.x1 ∧ 0 ≤ p.1.y1 ∧ 0 ≤ p.1.x2 ∧ 0 ≤ p.1.y2)
    (hlen : (kmO (boxList dets) (maxSimultaneous dets)).length = (boxList dets).length)
    (hsurj : ∀ g, g < maxSimultaneous dets →
      g ∈ kmO (boxList dets) (maxSimultaneous dets)) :
    (roiIsError (calcSegmentRoi marO kmO dets) = true ↔ (boxList dets).length = 0) ∧
    ((boxList dets).length = 0 →
      calcSegmentRoi marO kmO dets = .error "No faces detected in segment.") := by
  by_cases hk : maxSimultaneous dets = 0
  · have hbl : boxList dets = [] := (maxSimultaneous_eq_zero_iff dets).mp hk
    constructor
    · unfold calcSegmentRoi
      rw [if_pos hk, hbl]
      simp [roiIsError]
    · intro _
      unfold calcSegmentRoi
      rw [if_pos hk]
  · have hblpos : 0 < (boxList dets).length := by
      rcases Nat.eq_zero_or_pos (boxList dets).length with h0 | hpos
      · exact absurd ((maxSimultaneous_eq_zero_iff dets).mpr (List.length_eq_zero.mp h0)) hk
      · exact hpos
    have hok : ∃ r, calcSegmentRoi marO kmO dets = .ok r := by
      unfold calcSegmentRoi
      rw [if_neg hk]
      by_cases hk1 : maxSimultaneous dets = 1
      · rw [if_pos hk1]
        exact ⟨_, rfl⟩
      · rw [if_neg hk1, if_pos hnn]
        have hk2 : 2 ≤ maxSimultaneous dets := by omega
        have hgroups : ∀ g ∈ kmeansGroups (kmO (boxList dets) (maxSimultaneous dets))
            (maxSimultaneous dets) (boxesWithFrames dets), 0 < g.length := by
          intro g hgmem
          obtain ⟨gi, hgi, hgeq⟩ := List.mem_map.mp hgmem
          subst hgeq
          apply kmeansGroup_nonempty
          · rw [hlen, boxesWithFrames_length]
          · exact hsurj gi (List.mem_range.mp hgi)
        obtain ⟨rs, hrs⟩ := mapM_option_isSome (calcMouthMovement marO)
          (kmeansGroups (kmO (boxList dets) (maxSimultaneous dets))
            (maxSimultaneous dets) (boxesWithFrames dets))
          (fun gg hgg => by
            unfold calcMouthMovement
            rw [if_neg (by have := hgroups gg hgg; omega)]
            rfl)
        simp only [hrs]
        cases hbest : (rs.foldl (fun acc r => if r.1 > acc.1 then (r.1, some r.2) else acc)
            ((0 : ℚ), (none : Option Rect))).2 with
        | some roi =>
          simp only [hbest]
          exact ⟨roi, rfl⟩
        | none =>
          simp only [hbest]
          have h0mem : (((boxesWithFrames dets).zip
              (kmO (boxList dets) (maxSimultaneous dets))).filter
                (fun q => q.2 == 0)).map (·.1)
              ∈ kmeansGroups (kmO (boxList dets) (maxSimultaneous dets))
                (maxSimultaneous dets) (boxesWithFrames dets) := by
            unfold kmeansGroups
            exact List.mem_map.mpr ⟨0, List.mem_range.mpr (by omega), rfl⟩
          have hfb := fb_fold_isSome
            (kmeansGroups (kmO (boxList dets) (maxSimultaneous dets))
              (maxSimultaneous dets) (boxesWithFrames dets))
            ((0 : ℕ), (none : Option Rect))
            (Or.inr ⟨_, h0mem, hgroups _ h0mem⟩)
          obtain ⟨roi2, hroi2⟩ := Option.isSome_iff_exists.mp hfb
          simp only [hroi2]
          exact ⟨roi2, rfl⟩
    obtain ⟨r, hr⟩ := hok
    constructor
    · rw [hr]
      simp only [roiIsError, Bool.false_eq_true, false_iff]
      omega
    · intro h0
      omega

/-- C3 witness: two sampled frames, the first with two boxes, the second
with one (so k = 2 and three boxes in total), a landmark oracle that never
finds landmarks and a label assignment that populates both clusters: the
selector returns ok, and the error-iff-zero-boxes equivalence holds. -/
theorem c3_witness :
    (∀ p ∈ boxesWithFrames [some [⟨0, 0, 4, 6⟩, ⟨10, 10, 14, 16⟩], some [⟨1, 1, 5, 7⟩]],
      0 ≤ p.1.x1 ∧ 0 ≤ p.1.y1 ∧ 0 ≤ p.1.x2 ∧ 0 ≤ p.1.y2) ∧
    (((fun bs k => (List.range bs.length).map (· % k)) :
        KMeansOracle)
      (boxList [some [⟨0, 0, 4, 6⟩, ⟨10, 10, 14, 16⟩], some [⟨1, 1, 5, 7⟩]])
      (maxSimultaneous [some [⟨0, 0, 4, 6⟩, ⟨10, 10, 14, 16⟩], some [⟨1, 1, 5, 7⟩]])).length
      = (boxList [some [⟨0, 0, 4, 6⟩, ⟨10, 10, 14, 16⟩], some [⟨1, 1, 5, 7⟩]]).length ∧
    (∀ g, g < maxSimultaneous [some [⟨0, 0, 4, 6⟩, ⟨10, 10, 14, 16⟩], some [⟨1, 1, 5, 7⟩]] →
      g ∈ ((fun bs k => (List.range bs.length).map (· % k)) : KMeansOracle)
        (boxList [some [⟨0, 0, 4, 6⟩, ⟨10, 10, 14, 16⟩], some [⟨1, 1, 5, 7⟩]])
        (maxSimultaneous [some [⟨0, 0, 4, 6⟩, ⟨10, 10, 14, 16⟩], some [⟨1, 1, 5, 7⟩]])) ∧
    ((roiIsError (calcSegmentRoi (fun _ _ => none)
        (fun bs k => (List.range bs.length).map (· % k))
        [some [⟨0, 0, 4, 6⟩, ⟨10, 10, 14, 16⟩], some [⟨1, 1, 5, 7⟩]]) = true
      ↔ (boxList [some [⟨0, 0, 4, 6⟩, ⟨10, 10, 14, 16⟩], some [⟨1, 1, 5, 7⟩]]).length = 0) ∧
    ((boxList [some [⟨0, 0, 4, 6⟩, ⟨10, 10, 14, 16⟩], some [⟨1, 1, 5, 7⟩]]).length = 0 →
      calcSegmentRoi (fun _ _ => none) (fun bs k => (List.range bs.length).map (· % k))
        [some [⟨0, 0, 4, 6⟩, ⟨10, 10, 14, 16⟩], some [⟨1, 1, 5, 7⟩]]
        = .error "No faces detected in segment.")) :=
  ⟨by decide, by decide, by decide,
    c3_no_face_error_iff_zero_boxes (fun _ _ => none)
      (fun bs k => (List.range bs.length).map (· % k))
      [some [⟨0, 0, 4, 6⟩, ⟨10, 10, 14, 16⟩], some [⟨1, 1, 5, 7⟩]]
      (by decide) (by decide) (by decide)⟩

/-! ### C2: the Face Presence Scanner terminates.  First the batched
extraction is shown to act like a plain map over the sample timestamps. -/

/-- The Capacity Planner always returns at least one batch. -/
theorem calcNBatches_pos (w h : ℕ) (cuda : Bool) (n : ℕ) :
    0 < calcNBatches w h cuda n := by
  unfold calcNBatches
  cases cuda <;> simp <;> omega

/-- Concatenating the first n chunks of width fpb of a list yields its first
n * fpb elements. -/
theorem chunks_take (fpb n : ℕ) (l : List ℚ) :
    (List.range n).flatMap (fun i => (l.drop (i * fpb)).take fpb) = l.take (n * fpb) := by
  induction n with
  | zero => simp
  | succ n ih =>
    rw [List.range_succ, List.flatMap_append, ih]
    simp only [List.flatMap_cons, List.flatMap_nil, List.append_nil]
    rw [add_one_mul, List.take_add]

/-- When n * fpb covers the whole list, the n chunks concatenate to the
list itself. -/
theorem chunks_concat (n fpb : ℕ) (l : List ℚ) (hlen : l.length ≤ n * fpb) :
    (List.range n).flatMap (fun i => (l.drop (i * fpb)).take fpb) = l := by
  rw [chunks_take]
  exact List.take_of_length_le hlen

/-- Mapping f over Python-style slices [i * fpb : min ((i+1) * fpb) len] and
concatenating equals mapping f over the whole list, as soon as the batches
cover it. -/
theorem slices_map_concat (nB fpb : ℕ) (f : ℚ → Option (List Box)) (l : List ℚ)
    (hlen : l.length ≤ nB * fpb) :
    (List.range nB).flatMap
      (fun i => ((l.drop (i * fpb)).take (min ((i + 1) * fpb) l.length - i * fpb)).map f)
    = l.map f := by
  have hbody : ∀ i : ℕ,
      ((l.drop (i * fpb)).take (min ((i + 1) * fpb) l.length - i * fpb)).map f
      = ((l.drop (i * fpb)).take fpb).map f := by
    intro i
    congr 1
    rw [List.take_eq_take, List.length_drop]
    have h1 : (i + 1) * fpb = i * fpb + fpb := by ring
    omega
  calc (List.range nB).flatMap
        (fun i => ((l.drop (i * fpb)).take (min ((i + 1) * fpb) l.length - i * fpb)).map f)
      = (List.range nB).flatMap (fun i => ((l.drop (i * fpb)).take fpb).map f) :=
        congrArg _ (funext hbody)
    _ = ((List.range nB).flatMap (fun i => (l.drop (i * fpb)).take fpb)).map f := by
        rw [List.map_flatMap]
    _ = l.map f := by rw [chunks_concat nB fpb l hlen]

/-- The batched face detector computes exactly the detection oracle applied
to each sample timestamp in order. -/
theorem detectFacesBatched_eq_map (oracle : FaceOracle) (w h : ℕ) (cuda : Bool)
    (secs : List ℚ) :
    detectFacesBatched oracle w h cuda secs = secs.map oracle := by
  unfold detectFacesBatched
  apply slices_map_concat
  have hpos := calcNBatches_pos w h cuda secs.length
  have hdm := Nat.div_add_mod secs.length (calcNBatches w h cuda secs.length)
  have hmlt : secs.length % calcNBatches w h cuda secs.length <
      calcNBatches w h cuda secs.length := Nat.mod_lt _ hpos
  rw [Nat.mul_add, Nat.mul_one]
  omega

/-- roundMarked acts on the head of a cons and recurses. -/
theorem roundMarked_cons (bp : ℕ) (seg : ScanSegment) (rest : List ScanSegment) :
    roundMarked bp (seg :: rest)
    = (if seg.isAnalyzed then seg
       else { seg with numSamples := segmentNumSamples bp seg }) :: roundMarked bp rest := rfl

/-- roundDetectSecs contributes the head's samples and recurses. -/
theorem roundDetectSecs_cons (bp : ℕ) (seg : ScanSegment) (rest : List ScanSegment) :
    roundDetectSecs bp (seg :: rest)
    = (if seg.isAnalyzed then []
       else (List.range (segmentNumSamples bp seg)).map (fun i => seg.firstFaceSec + i))
      ++ roundDetectSecs bp rest := rfl

/-- The index bookkeeping of the scanner round is aligned: distributing the
detections of the round's sample timestamps over the marked segments analyzes
each unresolved segment on exactly its own samples. -/
theorem distributeDetections_aligned (oracle : FaceOracle) (bp : ℕ)
    (segs : List ScanSegment) :
    distributeDetections ((roundDetectSecs bp segs).map oracle) (roundMarked bp segs)
    = segs.map (scanRoundSeg oracle bp) := by
  induction segs with
  | nil => rfl
  | cons seg rest ih =>
    rw [roundMarked_cons, roundDetectSecs_cons, List.map_cons]
    by_cases ha : seg.isAnalyzed = true
    · rw [if_pos ha, if_pos ha, List.nil_append]
      simp only [distributeDetections, ha, if_true, ih]
      simp [scanRoundSeg, ha]
    · rw [if_neg ha, if_neg ha, List.map_append]
      have hlen : (((List.range (segmentNumSamples bp seg)).map
          (fun i => seg.firstFaceSec + i)).map oracle).length
          = ({ seg with numSamples := segmentNumSamples bp seg } : ScanSegment).numSamples := by
        simp [Function.comp_def, List.map_const', List.sum_replicate, smul_eq_mul]
      simp only [distributeDetections]
      rw [if_neg ha, List.take_left' hlen, List.drop_left' hlen, ih]
      simp [scanRoundSeg, ha, List.map_map, Function.comp_def]

/-- One iteration of the scanner's while loop acts segment-wise. -/
theorem scanRound_eq_map (oracle : FaceOracle) (w h : ℕ) (cuda : Bool) (bp : ℕ)
    (segs : List ScanSegment) :
    scanRound oracle w h cuda bp segs = segs.map (scanRoundSeg oracle bp) := by
  unfold scanRound
  rw [detectFacesBatched_eq_map, distributeDetections_aligned]

/-- Scanning a slice of detections never touches a segment's endTime or
isAnalyzed flag. -/
theorem scanSamples_fields (dets : List (Option (List Box))) (seg : ScanSegment) :
    (scanSamples dets seg).endTime = seg.endTime
    ∧ (scanSamples dets seg).isAnalyzed = seg.isAnalyzed := by
  induction dets generalizing seg with
  | nil => exact ⟨rfl, rfl⟩
  | cons d rest ih =>
    cases d with
    | some b => exact ⟨rfl, rfl⟩
    | none => exact ih { seg with firstFaceSec := seg.firstFaceSec + 1 }

/-- Scanning a slice either finds a face or leaves foundFace alone and
advances firstFaceSec by exactly one second per sample. -/
theorem scanSamples_advance (dets : List (Option (List Box))) (seg : ScanSegment) :
    (scanSamples dets seg).foundFace = true
    ∨ ((scanSamples dets seg).foundFace = seg.foundFace
       ∧ (scanSamples dets seg).firstFaceSec = seg.firstFaceSec + dets.length) := by
  induction dets generalizing seg with
  | nil => exact Or.inr ⟨rfl, by simp [scanSamples]⟩
  | cons d rest ih =>
    cases d with
    | some b => exact Or.inl rfl
    | none =>
      simp only [scanSamples]
      rcases ih { seg with firstFaceSec := seg.firstFaceSec + 1 } with h | ⟨h1, h2⟩
      · exact Or.inl h
      · refine Or.inr ⟨h1, ?_⟩
        rw [h2]
        simp only [List.length_cons]
        push_cast
        ring

/-- The two outcomes of analyzing one segment: it is marked analyzed exactly
when a face was found or firstFaceSec reached the resolution boundary. -/
theorem analyzeSegment_cases (dets : List (Option (List Box))) (seg : ScanSegment) :
    (analyzeSegment dets seg = { scanSamples dets seg with isAnalyzed := true }
      ∧ ((scanSamples dets seg).foundFace = true
         ∨ (scanSamples dets seg).endTime - 0.25 ≤ (scanSamples dets seg).firstFaceSec))
    ∨ (analyzeSegment dets seg = scanSamples dets seg
       ∧ (scanSamples dets seg).foundFace = false
       ∧ (scanSamples dets seg).firstFaceSec < (scanSamples dets seg).endTime - 0.25) := by
  simp only [analyzeSegment]
  by_cases hcond : (scanSamples dets seg).foundFace = true
      ∨ (scanSamples dets seg).firstFaceSec ≥ (scanSamples dets seg).endTime - 0.25
  · rw [if_pos hcond]
    exact Or.inl ⟨rfl, hcond⟩
  · rw [if_neg hcond]
    push_neg at hcond
    refine Or.inr ⟨rfl, ?_, hcond.2⟩
    simpa using hcond.1

/-- Each round samples at least once on every unresolved segment. -/
theorem segmentNumSamples_pos (bp : ℕ) (seg : ScanSegment) :
    1 ≤ segmentNumSamples bp seg := le_max_left _ _

/-- Analyzing an unresolved segment on at least one sample strictly
decreases its termination measure. -/
theorem analyzeSegment_measure_lt (dets : List (Option (List Box))) (seg : ScanSegment)
    (ha : seg.isAnalyzed = false) (hd : 1 ≤ dets.length) :
    segMeasure (analyzeSegment dets seg) < segMeasure seg := by
  have hmeas : segMeasure seg = ⌈seg.endTime - 0.25 - seg.firstFaceSec⌉.toNat + 1 := by
    unfold segMeasure
    rw [if_neg (by simp [ha])]
  have hend := (scanSamples_fields dets seg).1
  have hana := (scanSamples_fields dets seg).2
  rcases analyzeSegment_cases dets seg with ⟨heq, -⟩ | ⟨heq, hff, hlt⟩
  · rw [heq, hmeas]
    have hz : segMeasure { scanSamples dets seg with isAnalyzed := true } = 0 := by
      unfold segMeasure
      rw [if_pos rfl]
    rw [hz]
    omega
  · rcases scanSamples_advance dets seg with hf | ⟨-, hffs⟩
    · rw [hf] at hff
      exact absurd hff (by simp)
    · have hm2 : segMeasure (scanSamples dets seg)
          = ⌈seg.endTime - 0.25 - (seg.firstFaceSec + (dets.length : ℚ))⌉.toNat + 1 := by
        unfold segMeasure
        rw [if_neg (by simp [hana, ha]), hend, hffs]
      have hrw : seg.endTime - 0.25 - (seg.firstFaceSec + (dets.length : ℚ))
          = seg.endTime - 0.25 - seg.firstFaceSec - (dets.length : ℚ) := by ring
      have h1 : ⌈seg.endTime - 0.25 - (seg.firstFaceSec + (dets.length : ℚ))⌉
          = ⌈seg.endTime - 0.25 - seg.firstFaceSec⌉ - (dets.length : ℤ) := by
        rw [hrw]
        exact Int.ceil_sub_nat _ _
      have h2 : 0 < ⌈seg.endTime - 0.25 - (seg.firstFaceSec + (dets.length : ℚ))⌉ := by
        rw [Int.ceil_pos]
        rw [hffs, hend] at hlt
        linarith
      rw [heq, hm2, hmeas]
      omega

/-- The isAnalyzed flag is only ever set for a reason: one round preserves
SegResolved on each segment. -/
theorem scanRoundSeg_resolved (oracle : FaceOracle) (bp : ℕ) (seg : ScanSegment)
    (h : SegResolved seg) : SegResolved (scanRoundSeg oracle bp seg) := by
  unfold scanRoundSeg
  by_cases ha : seg.isAnalyzed = true
  · rw [if_pos ha]
    exact h
  · rw [if_neg ha]
    rcases analyzeSegment_cases
        ((List.range (segmentNumSamples bp seg)).map (fun i => oracle (seg.firstFaceSec + i)))
        { seg with numSamples := segmentNumSamples bp seg } with ⟨heq, hcond⟩ | ⟨heq, -, -⟩
    · rw [heq]
      intro _
      exact hcond
    · rw [heq]
      intro hana
      have h2 := (scanSamples_fields
        ((List.range (segmentNumSamples bp seg)).map (fun i => oracle (seg.firstFaceSec + i)))
        { seg with numSamples := segmentNumSamples bp seg }).2
      rw [h2] at hana
      exact absurd hana ha

/-- totalMeasure of a cons splits into head and tail. -/
theorem totalMeasure_cons (s : ScanSegment) (rest : List ScanSegment) :
    totalMeasure (s :: rest) = segMeasure s + totalMeasure rest := rfl

/-- A round leaves a resolved segment untouched. -/
theorem scanRoundSeg_analyzed (oracle : FaceOracle) (bp : ℕ) (seg : ScanSegment)
    (ha : seg.isAnalyzed = true) : scanRoundSeg oracle bp seg = seg := by
  unfold scanRoundSeg
  rw [if_pos ha]

/-- A round strictly decreases the measure of an unresolved segment. -/
theorem scanRoundSeg_measure_lt (oracle : FaceOracle) (bp : ℕ) (seg : ScanSegment)
    (ha : seg.isAnalyzed = false) :
    segMeasure (scanRoundSeg oracle bp seg) < segMeasure seg := by
  unfold scanRoundSeg
  rw [if_neg (by simp [ha])]
  exact analyzeSegment_measure_lt _ { seg with numSamples := segmentNumSamples bp seg }
    ha (by simpa [Function.comp_def, List.map_const', List.sum_replicate, smul_eq_mul]
      using segmentNumSamples_pos bp seg)

/-- A round never increases any segment's measure. -/
theorem segMeasure_scanRoundSeg_le (oracle : FaceOracle) (bp : ℕ) (seg : ScanSegment) :
    segMeasure (scanRoundSeg oracle bp seg) ≤ segMeasure seg := by
  by_cases ha : seg.isAnalyzed = true
  · rw [scanRoundSeg_analyzed oracle bp seg ha]
  · exact le_of_lt (scanRoundSeg_measure_lt oracle bp seg (by simpa using ha))

/-- A round never increases the total measure. -/
theorem totalMeasure_round_le (oracle : FaceOracle) (bp : ℕ) (segs : List ScanSegment) :
    totalMeasure (segs.map (scanRoundSeg oracle bp)) ≤ totalMeasure segs := by
  induction segs with
  | nil => exact le_refl _
  | cons seg rest ih =>
    rw [List.map_cons, totalMeasure_cons, totalMeasure_cons]
    exact Nat.add_le_add (segMeasure_scanRoundSeg_le oracle bp seg) ih

/-- While some segment is unresolved, a round strictly decreases the total
measure. -/
theorem totalMeasure_round_lt (oracle : FaceOracle) (bp : ℕ) (segs : List ScanSegment)
    (h : ¬ segs.all (·.isAnalyzed) = true) :
    totalMeasure (segs.map (scanRoundSeg oracle bp)) < totalMeasure segs := by
  induction segs with
  | nil => exact absurd rfl h
  | cons seg rest ih =>
    rw [List.map_cons, totalMeasure_cons, totalMeasure_cons]
    by_cases hseg : seg.isAnalyzed = true
    · rw [scanRoundSeg_analyzed oracle bp seg hseg]
      have hrest : ¬ rest.all (·.isAnalyzed) = true := by
        intro hr
        exact h (by simp [List.all_cons, hseg, hr])
      exact Nat.add_lt_add_left (ih hrest) _
    · have hhead := scanRoundSeg_measure_lt oracle bp seg (by simpa using hseg)
      have hrest := totalMeasure_round_le oracle bp rest
      omega

/-- Unfolding equation of the loop at fuel 0. -/
theorem scanLoop_zero (oracle : FaceOracle) (w h : ℕ) (cuda : Bool) (bp : ℕ)
    (segs : List ScanSegment) :
    scanLoop oracle w h cuda 0 bp segs
    = if segs.all (·.isAnalyzed) then some segs else none := rfl

/-- Unfolding equation of the loop at fuel + 1. -/
theorem scanLoop_succ (oracle : FaceOracle) (w h : ℕ) (cuda : Bool) (fuel bp : ℕ)
    (segs : List ScanSegment) :
    scanLoop oracle w h cuda (fuel + 1) bp segs
    = if segs.all (·.isAnalyzed) then some segs
      else scanLoop oracle w h cuda fuel ((bp + 3) * 2)
        (scanRound oracle w h cuda bp segs) := rfl

/-- An unresolved segment has positive measure. -/
theorem segMeasure_pos_of_unanalyzed (seg : ScanSegment) (ha : seg.isAnalyzed = false) :
    1 ≤ segMeasure seg := by
  unfold segMeasure
  rw [if_neg (by simp [ha])]
  omega

/-- Zero total measure forces every segment to be resolved. -/
theorem all_analyzed_of_measure_zero (segs : List ScanSegment)
    (h : totalMeasure segs = 0) : segs.all (·.isAnalyzed) = true := by
  induction segs with
  | nil => rfl
  | cons seg rest ih =>
    rw [totalMeasure_cons] at h
    have hseg : seg.isAnalyzed = true := by
      by_contra hc
      have := segMeasure_pos_of_unanalyzed seg (by simpa using hc)
      omega
    have hrest := ih (by omega)
    simp [List.all_cons, hseg, hrest]

/-- The scanner loop run with fuel at least the total measure returns, with
every segment resolved, as many segments as it was given, and each resolved
for one of the two declared reasons. -/
theorem scanLoop_total (oracle : FaceOracle) (w h : ℕ) (cuda : Bool) :
    ∀ (fuel bp : ℕ) (segs : List ScanSegment), totalMeasure segs ≤ fuel →
    (∀ s ∈ segs, SegResolved s) →
    ∃ out, scanLoop oracle w h cuda fuel bp segs = some out
      ∧ out.all (·.isAnalyzed) = true
      ∧ out.length = segs.length
      ∧ ∀ s ∈ out, SegResolved s := by
  intro fuel
  induction fuel with
  | zero =>
    intro bp segs hm hinv
    have hall := all_analyzed_of_measure_zero segs (Nat.le_zero.mp hm)
    exact ⟨segs, by rw [scanLoop_zero, if_pos hall], hall, rfl, hinv⟩
  | succ fuel ih =>
    intro bp segs hm hinv
    by_cases hall : segs.all (·.isAnalyzed) = true
    · exact ⟨segs, by rw [scanLoop_succ, if_pos hall], hall, rfl, hinv⟩
    · have hlt : totalMeasure (scanRound oracle w h cuda bp segs) < totalMeasure segs := by
        rw [scanRound_eq_map]
        exact totalMeasure_round_lt oracle bp segs hall
      have hinv2 : ∀ s ∈ scanRound oracle w h cuda bp segs, SegResolved s := by
        rw [scanRound_eq_map]
        intro s hs
        obtain ⟨t, ht, rfl⟩ := List.mem_map.mp hs
        exact scanRoundSeg_resolved oracle bp t (hinv t ht)
      obtain ⟨out, hout, hana, hlen, hinvO⟩ :=
        ih ((bp + 3) * 2) (scanRound oracle w h cuda bp segs) (by omega) hinv2
      refine ⟨out, ?_, hana, ?_, hinvO⟩
      · rw [scanLoop_succ, if_neg hall]
        exact hout
      · rw [hlen, scanRound_eq_map, List.length_map]

/-- C2: the Face Presence Scanner's round loop terminates: for every input
segment list, enough fuel (the total termination measure) makes the loop
exit, returning one output segment per input segment, each resolved either
by finding a face or by firstFaceSec having advanced to within 0.25 s of the
segment's end. -/
theorem c2_scanner_terminates (oracle : FaceOracle) (w h : ℕ) (cuda : Bool)
    (segments : List SpeakerSegment) :
    ∃ (fuel : ℕ) (out : List FaceSegment),
      findFirstSecWithFaceForEachSegment oracle w h cuda fuel segments = some out
      ∧ out.length = segments.length
      ∧ ∀ s ∈ out, s.foundFace = true ∨ s.endTime - 0.25 ≤ s.firstFaceSec := by
  obtain ⟨out, hout, hall, hlen, hinv⟩ :=
    scanLoop_total oracle w h cuda (totalMeasure (segments.map initScanSegment)) 1
      (segments.map initScanSegment) (le_refl _)
      (fun s hs => by
        obtain ⟨t, ht, rfl⟩ := List.mem_map.mp hs
        intro hana
        simp [initScanSegment] at hana)
  refine ⟨totalMeasure (segments.map initScanSegment),
    out.map (fun s => ⟨s.speakers, s.startTime, s.endTime, s.firstFaceSec, s.foundFace⟩),
    ?_, ?_, ?_⟩
  · unfold findFirstSecWithFaceForEachSegment
    rw [hout]
    rfl
  · rw [List.length_map, hlen, List.length_map]
  · intro s hs
    obtain ⟨t, ht, rfl⟩ := List.mem_map.mp hs
    have hta : t.isAnalyzed = true := by
      have hmem := List.all_eq_true.mp hall t ht
      simpa using hmem
    exact hinv t ht hta
